import Mathlib

/-!
Shallow embedding of the `otp` Go package (HOTP/TOTP one-time passwords).

Go strings are byte sequences; we model them as `List Nat` with each
element a byte value.  Machine integers are modelled as `Nat`/`Int` with
explicit reductions modulo `2 ^ 64` (Go `uint64`) or `2 ^ 32` (Go
`uint32`) exactly where the Go code performs wrapping conversions.

The keyed hash (Go `crypto/hmac` over SHA-1/SHA-256/SHA-512, selected by
`Config.getHash`) is an external cryptographic primitive, not code of
this repository; the embedding takes it as an explicit parameter
`H : HmacFamily`, where `H alg key message` is the digest.  Everything
downstream of the digest (dynamic truncation, modulo reduction, decimal
formatting, window scanning, URL construction/parsing) is translated
from the source.
-/

namespace Otp

/-- A Go string: a sequence of bytes. -/
abbrev GoStr := List Nat

/-- Byte sequence of an ASCII Lean string literal (used to write the
constant strings appearing in the source, e.g. `"otpauth"`). -/
def gs (s : String) : GoStr := s.data.map Char.toNat

/-- `Algorithm` from `otp.go`: the hashing algorithm used for OTP
generation. -/
inductive Alg where
  | sha1
  | sha256
  | sha512
deriving DecidableEq, Repr

/-- `Algorithm.String()` from `otp.go` (the `default` branch also
returns `"SHA1"`, but the enumeration is closed here). -/
def Alg.str : Alg → GoStr
  | .sha1 => gs "SHA1"
  | .sha256 => gs "SHA256"
  | .sha512 => gs "SHA512"

/-- `Config` from `otp.go`.  `Digits` and `Period` are Go `int`
(64-bit signed), `Counter` is `uint64` (a `Nat`, reduced mod `2 ^ 64`
wherever the source performs `uint64` arithmetic). -/
structure Config where
  Secret : GoStr
  Digits : Int
  Algorithm : Alg
  Period : Int
  Counter : Nat
  Issuer : GoStr
  AccountName : GoStr
deriving DecidableEq, Repr

/-- `DefaultConfig()` from `otp.go`. -/
def DefaultConfig : Config :=
  { Secret := [], Digits := 6, Algorithm := .sha1, Period := 30,
    Counter := 0, Issuer := [], AccountName := [] }

/-- The error values from `errors.go` that the modelled operations can
return (`ErrInvalidDigits`, and the wrapped base32 decode failure). -/
inductive OTPError where
  | invalidDigits
  | secretDecode
deriving DecidableEq, Repr

/-- Result of a fallible Go call: a value or an error. -/
inductive Res (α : Type) where
  | ok (a : α)
  | err (e : OTPError)
deriving DecidableEq, Repr

/-- The payload of a successful result (`[]` for errors); used to
state loop invariants without an existential. -/
def resValue : Res GoStr → GoStr
  | .ok s => s
  | .err _ => []

/-- The family of keyed hashes: `H alg key message` is the HMAC digest
(a byte sequence).  SHA-1/SHA-256/SHA-512 digests are 20/32/64 bytes. -/
abbrev HmacFamily := Alg → GoStr → GoStr → GoStr

/-! ### Base32 decoding (`encoding/base32` StdEncoding, as used by
`decodeSecret`) -/

/-- Value of one symbol of the standard base32 alphabet
`A..Z 2..7`. -/
def b32val (b : Nat) : Option Nat :=
  if 65 ≤ b ∧ b ≤ 90 then some (b - 65)
  else if 50 ≤ b ∧ b ≤ 55 then some (b - 24)
  else none

/-- Accumulate the 5-bit values of a run of data symbols into one
number (big-endian). -/
def b32bits : GoStr → Option Nat
  | [] => some 0
  | b :: rest =>
    match b32val b, b32bits rest with
    | some v, some acc => some (v * 2 ^ (5 * rest.length) + acc)
    | _, _ => none

/-- Decode one 8-symbol base32 quantum.  `isLast` tells whether this is
the final quantum; `=` padding is only legal there.  The data-symbol
count determines the number of output bytes (RFC 4648): 2→1, 4→2, 5→3,
7→4, 8→5.  (The Go decoder additionally tolerates a few malformed
paddings it later rejects; none of the claims depend on those paths.) -/
def b32chunk (chunk : GoStr) (isLast : Bool) : Option GoStr :=
  let data := chunk.takeWhile (fun b => b ≠ 61)
  let pad := chunk.drop data.length
  if ¬ pad.all (fun b => b = 61) then none
  else if pad ≠ [] ∧ ¬ isLast then none
  else
    let n := data.length
    let outLen : Option Nat :=
      match n with
      | 2 => some 1 | 4 => some 2 | 5 => some 3 | 7 => some 4 | 8 => some 5
      | _ => none
    match outLen with
    | none => none
    | some m =>
      match b32bits data with
      | none => none
      | some v =>
        let v' := v >>> (5 * n - 8 * m)
        some ((List.range m).reverse.map (fun j => (v' >>> (8 * j)) % 256))

/-- Decode a base32 string quantum by quantum.  Inputs whose length is
not a multiple of 8 are rejected, as in Go's padded StdEncoding. -/
def b32decodeAux : Nat → GoStr → Option GoStr
  | _, [] => some []
  | 0, _ => none
  | fuel + 1, s =>
    if 8 ≤ s.length then
      match b32chunk (s.take 8) (decide (s.length = 8)) with
      | none => none
      | some bytes => (b32decodeAux fuel (s.drop 8)).map (fun rest => bytes ++ rest)
    else none

/-- `base32.StdEncoding.DecodeString`. -/
def b32decode (s : GoStr) : Option GoStr := b32decodeAux (s.length + 1) s

/-- Bytewise ASCII upper-casing (`strings.ToUpper` restricted to the
ASCII inputs a decodable base32 secret consists of). -/
def toUpperGo (s : GoStr) : GoStr :=
  s.map (fun b => if 97 ≤ b ∧ b ≤ 122 then b - 32 else b)

/-- `decodeSecret` from `secret.go`: strip spaces, upper-case, base32
decode. -/
def decodeSecret (c : Config) : Option GoStr :=
  b32decode (toUpperGo (c.Secret.filter (fun b => b ≠ 32)))

/-! ### Code derivation (`generateOTP` from `otp.go`) -/

/-- `binary.BigEndian.PutUint64`: the 8-byte big-endian encoding of a
`uint64` counter. -/
def uint64be (n : Nat) : GoStr :=
  [n >>> 56 % 256, n >>> 48 % 256, n >>> 40 % 256, n >>> 32 % 256,
   n >>> 24 % 256, n >>> 16 % 256, n >>> 8 % 256, n % 256]

/-- `binary.BigEndian.Uint32` of the first four bytes of a list
(the source slices `hash[offset : offset+4]`; digests of the three
supported algorithms always have at least 19 bytes beyond any offset
`≤ 15`, so the default `0` padding is never reached for them). -/
def be32 (l : GoStr) : Nat :=
  l.getD 0 0 * 2 ^ 24 + l.getD 1 0 * 2 ^ 16 + l.getD 2 0 * 2 ^ 8 + l.getD 3 0

/-- `uint32(math.Pow10(d))` for `0 ≤ d ≤ 10`: `math.Pow10` is exact on
this range, and the Go compiler lowers the non-constant
`float64 → uint32` conversion on amd64 by truncating through `int64`
and keeping the low 32 bits, i.e. `10 ^ d mod 2 ^ 32`.  For `d ≤ 9`
this equals `10 ^ d`; for `d = 10` it is `1410065408`. -/
def pow10u32 (d : Nat) : Nat := 10 ^ d % 2 ^ 32

/-- Decimal digit bytes of `n`, most significant first (the decimal
conversion performed by `fmt.Sprintf("%d", ·)`); fuel-structured so it
reduces definitionally. -/
def decBytesAux : Nat → Nat → GoStr
  | 0, _ => []
  | fuel + 1, n =>
    if n < 10 then [48 + n]
    else decBytesAux fuel (n / 10) ++ [48 + n % 10]

/-- Decimal representation of a natural number as bytes. -/
def decBytes (n : Nat) : GoStr := decBytesAux (n + 1) n

/-- `fmt.Sprintf("%0<w>d", n)`: decimal, left-padded with zeros to
width `w`. -/
def formatOTP (w : Nat) (n : Nat) : GoStr :=
  let ds := decBytes n
  List.replicate (w - ds.length) 48 ++ ds

/-- `(*Config).generateOTP` from `otp.go`: digit-count check, secret
decode, HMAC over the 8-byte big-endian counter, dynamic truncation
(offset from the low nibble of the last digest byte, 31-bit mask),
reduction modulo `uint32(math.Pow10(Digits))`, zero-padded decimal
formatting. -/
def generateOTP (H : HmacFamily) (c : Config) (counter : Nat) : Res GoStr :=
  if c.Digits ≤ 0 ∨ 10 < c.Digits then .err .invalidDigits
  else
    match decodeSecret c with
    | none => .err .secretDecode
    | some secretBytes =>
      let counterBytes := uint64be counter
      let hash := H c.Algorithm secretBytes counterBytes
      let offset := hash.getD (hash.length - 1) 0 &&& 0x0f
      let truncatedHash := be32 (hash.drop offset) &&& 0x7fffffff
      let otp := truncatedHash % pow10u32 c.Digits.toNat
      .ok (formatOTP c.Digits.toNat otp)

/-! ### HOTP operations (`hotp.go`) -/

/-- Go `uint64(i)` applied to a signed 64-bit value: reinterpret the
two's-complement bit pattern, i.e. reduce modulo `2 ^ 64` (the modulus
is written as a numeral so that arithmetic automation recognises
it). -/
def u64ofInt (i : Int) : Nat := (i % (18446744073709551616 : Int)).toNat

/-- `GenerateHOTP`: derive at the stored counter.  Go methods take the
config by pointer; the embedding returns the (here unchanged) config
alongside the result. -/
def GenerateHOTP (H : HmacFamily) (c : Config) : Config × Res GoStr :=
  (c, generateOTP H c c.Counter)

/-- `GenerateHOTPAt`: derive at an explicit counter. -/
def GenerateHOTPAt (H : HmacFamily) (c : Config) (counter : Nat) : Config × Res GoStr :=
  (c, generateOTP H c counter)

/-- The scan loop of `ValidateHOTP`: `for i := 0; i <= windowSize; i++`
with `counter := c.Counter + uint64(i)` (wrapping `uint64` addition).
`i` is the loop index, the second argument the number of remaining
iterations. -/
def hotpLoop (H : HmacFamily) (c : Config) (code : GoStr) : Nat → Nat → Res (Bool × Nat)
  | _, 0 => .ok (false, 0)
  | i, fuel + 1 =>
    let counter := (c.Counter + i) % 2 ^ 64
    match generateOTP H c counter with
    | .err e => .err e
    | .ok expected =>
      if code = expected then .ok (true, counter)
      else hotpLoop H c code (i + 1) fuel

/-- `ValidateHOTP` from `hotp.go`: negative window size replaced by the
default 10, then scan `windowSize + 1` counters upward from the stored
counter. -/
def ValidateHOTP (H : HmacFamily) (c : Config) (code : GoStr) (windowSize : Int) :
    Config × Res (Bool × Nat) :=
  let w : Int := if windowSize < 0 then 10 else windowSize
  (c, hotpLoop H c code 0 (w.toNat + 1))

/-! ### TOTP operations (`totp.go`) -/

/-- `GenerateTOTPAt`: a non-positive period is overwritten with 30 *in
the caller's config* (`c.Period = 30` through the pointer receiver),
then the counter is `uint64(t.Unix()) / uint64(c.Period)`. -/
def GenerateTOTPAt (H : HmacFamily) (c : Config) (t : Int) : Config × Res GoStr :=
  let c' := if c.Period ≤ 0 then { c with Period := 30 } else c
  let counter := u64ofInt t / u64ofInt c'.Period
  (c', generateOTP H c' counter)

/-- The scan loop of `ValidateTOTPAt`:
`for i := -windowSize; i <= windowSize; i++` with
`counter := currentCounter + uint64(i)` (wrapping `uint64`
arithmetic). -/
def totpLoop (H : HmacFamily) (c : Config) (code : GoStr) (cs : Nat) : Int → Nat → Res Bool
  | _, 0 => .ok false
  | i, fuel + 1 =>
    let counter := (cs + u64ofInt i) % 2 ^ 64
    match generateOTP H c counter with
    | .err e => .err e
    | .ok expected =>
      if code = expected then .ok true
      else totpLoop H c code cs (i + 1) fuel

/-- `ValidateTOTPAt` from `totp.go`: negative window size replaced by
the default 1; `currentCounter := uint64(t.Unix()) / uint64(c.Period)`
with no period validation — when `uint64(c.Period)` is zero the Go
division panics, modelled as `none`. -/
def ValidateTOTPAt (H : HmacFamily) (c : Config) (code : GoStr) (t : Int) (windowSize : Int) :
    Config × Option (Res Bool) :=
  let w : Int := if windowSize < 0 then 1 else windowSize
  if u64ofInt c.Period = 0 then (c, none)
  else
    let currentCounter := u64ofInt t / u64ofInt c.Period
    (c, some (totpLoop H c code currentCounter (-w) (2 * w.toNat + 1)))

/-- `GetCurrentTOTPWindow` (with `time.Now().Unix()` passed explicitly
as `now`): non-positive period overwritten with 30, then the half-open
window `[cp * period, (cp + 1) * period)` where `cp` is the signed
division `now / period`. -/
def GetCurrentTOTPWindow (c : Config) (now : Int) : Config × (Int × Int) :=
  let c' := if c.Period ≤ 0 then { c with Period := 30 } else c
  let currentPeriod := Int.tdiv now c'.Period
  (c', (currentPeriod * c'.Period, (currentPeriod + 1) * c'.Period))

/-- `TOTPEntry` from `totp.go`, with times as unix seconds. -/
structure TOTPEntry where
  Code : GoStr
  ValidFrom : Int
  ValidTo : Int
  IsCurrent : Bool
deriving DecidableEq, Repr

/-- Wrap an integer into the signed 64-bit range (overflow of Go's
`int` / `int64` / `time.Duration` arithmetic on amd64). -/
def i64wrap (x : Int) : Int :=
  (x + 9223372036854775808) % 18446744073709551616 - 9223372036854775808

/-- `time.Duration(offset*period) * time.Second` in nanoseconds: both
the `int` multiplication and the `Duration` scaling by `1e9` are
wrapping `int64` operations. -/
def durSeconds (offset period : Int) : Int :=
  i64wrap (i64wrap (offset * period) * 1000000000)

/-- `t.Add(d)` at unix-seconds resolution for a `time.Time` with zero
nanoseconds: the result's `Unix()` is `t` plus the floor of `d`
nanoseconds in whole seconds. -/
def addDur (t d : Int) : Int := t + d / 1000000000

/-- The loop of `GenerateTOTPBatch`: `offset := i - windowCount/2`
(Go signed division),
`targetTime := baseTime.Add(time.Duration(offset*c.Period) * time.Second)`
(wrapping `int64` duration arithmetic) read from the *current* config
state, generation (which may overwrite a non-positive period), window
bounds, and the same duration shift of the bounds.  Errors abort the
whole batch (`none`). -/
def batchLoop (H : HmacFamily) (now wc : Int) : Config → Nat → Nat → Option (Config × List TOTPEntry)
  | c, _, 0 => some (c, [])
  | c, i, fuel + 1 =>
    let offset : Int := (i : Int) - Int.tdiv wc 2
    let targetTime := addDur now (durSeconds offset c.Period)
    let gr := GenerateTOTPAt H c targetTime
    match gr.2 with
    | .err _ => none
    | .ok code =>
      let wr := GetCurrentTOTPWindow gr.1 now
      let s := if offset ≠ 0 then addDur wr.2.1 (durSeconds offset wr.1.Period) else wr.2.1
      let e := if offset ≠ 0 then addDur wr.2.2 (durSeconds offset wr.1.Period) else wr.2.2
      match batchLoop H now wc wr.1 (i + 1) fuel with
      | none => none
      | some (c3, rest) =>
        some (c3, { Code := code, ValidFrom := s, ValidTo := e,
                    IsCurrent := decide (offset = 0) } :: rest)

/-- `GenerateTOTPBatch` (with `time.Now().Unix()` passed explicitly):
non-positive window count replaced by 3, then one entry per
`i < windowCount`. -/
def GenerateTOTPBatch (H : HmacFamily) (c : Config) (now : Int) (windowCount : Int) :
    Option (Config × List TOTPEntry) :=
  let wc : Int := if windowCount ≤ 0 then 3 else windowCount
  batchLoop H now wc c 0 wc.toNat

/-! ### Interchange URLs (`url.go`) -/

/-- Bytes Go's `url.QueryEscape` keeps unescaped:
`A-Z a-z 0-9 - _ . ~`. -/
def isUnreserved (b : Nat) : Bool :=
  decide ((65 ≤ b ∧ b ≤ 90) ∨ (97 ≤ b ∧ b ≤ 122) ∨ (48 ≤ b ∧ b ≤ 57) ∨
    b = 45 ∨ b = 95 ∨ b = 46 ∨ b = 126)

/-- Upper-case hex digit byte of a nibble (`"0123456789ABCDEF"`). -/
def hexDigitUpper (n : Nat) : Nat := if n < 10 then 48 + n else 55 + n

/-- One byte under `url.QueryEscape`: unreserved bytes kept, space to
`+`, everything else `%XX`. -/
def escByte (b : Nat) : GoStr :=
  if isUnreserved b then [b]
  else if b = 32 then [43]
  else [37, hexDigitUpper (b / 16), hexDigitUpper (b % 16)]

/-- `url.QueryEscape` over the bytes of a string. -/
def queryEscape (s : GoStr) : GoStr := s.flatMap escByte

/-- Value of a hex digit byte. -/
def hexVal (b : Nat) : Option Nat :=
  if 48 ≤ b ∧ b ≤ 57 then some (b - 48)
  else if 65 ≤ b ∧ b ≤ 70 then some (b - 55)
  else if 97 ≤ b ∧ b ≤ 102 then some (b - 87)
  else none

/-- `url.QueryUnescape`: decode `%XX` triples, map `+` to space. -/
def queryUnescape : GoStr → Option GoStr
  | [] => some []
  | b :: rest =>
    if b = 37 then
      match rest with
      | h :: l :: rest2 =>
        match hexVal h, hexVal l with
        | some x, some y => (queryUnescape rest2).map (fun r => (16 * x + y) :: r)
        | _, _ => none
      | _ => none
    else if b = 43 then (queryUnescape rest).map (fun r => 32 :: r)
    else (queryUnescape rest).map (fun r => b :: r)

/-- `url.PathUnescape` (as applied by `url.Parse` to the path): decode
`%XX` triples but leave `+` alone. -/
def pathUnescape : GoStr → Option GoStr
  | [] => some []
  | b :: rest =>
    if b = 37 then
      match rest with
      | h :: l :: rest2 =>
        match hexVal h, hexVal l with
        | some x, some y => (pathUnescape rest2).map (fun r => (16 * x + y) :: r)
        | _, _ => none
      | _ => none
    else (pathUnescape rest).map (fun r => b :: r)

/-- Byte-wise lexicographic order on strings (`sort.Strings`, used by
`url.Values.Encode` on the keys). -/
def lexLe : GoStr → GoStr → Bool
  | [], _ => true
  | _ :: _, [] => false
  | a :: as, b :: bs => if a < b then true else if b < a then false else lexLe as bs

/-- Insert a pair into a key-sorted list. -/
def insortKey (p : GoStr × GoStr) : List (GoStr × GoStr) → List (GoStr × GoStr)
  | [] => [p]
  | q :: qs => if lexLe p.1 q.1 then p :: q :: qs else q :: insortKey p qs

/-- Sort pairs by key (`url.Values.Encode` sorts keys). -/
def sortByKey : List (GoStr × GoStr) → List (GoStr × GoStr)
  | [] => []
  | p :: ps => insortKey p (sortByKey ps)

/-- Join with `&`. -/
def joinAmp : List GoStr → GoStr
  | [] => []
  | x :: xs =>
    match xs with
    | [] => x
    | _ :: _ => x ++ 38 :: joinAmp xs

/-- `url.Values.Encode`: keys sorted, each pair emitted as
`escape(k)=escape(v)`, joined by `&`. -/
def encodeValues (ps : List (GoStr × GoStr)) : GoStr :=
  joinAmp ((sortByKey ps).map (fun p => queryEscape p.1 ++ 61 :: queryEscape p.2))

/-- Decimal digit run to a value (`none` if empty or non-digit). -/
def decVal (l : GoStr) : Option Nat :=
  if l = [] then none
  else if l.all (fun b => decide (48 ≤ b ∧ b ≤ 57)) then
    some (l.foldl (fun a b => a * 10 + (b - 48)) 0)
  else none

/-- `strconv.Itoa` on a Go `int`. -/
def Itoa (i : Int) : GoStr :=
  if i < 0 then 45 :: decBytes (-i).toNat else decBytes i.toNat

/-- `strconv.Atoi`: optional sign, decimal digits, 64-bit signed
range. -/
def Atoi (s : GoStr) : Option Int :=
  match s with
  | [] => none
  | b :: rest =>
    if b = 45 then (decVal rest).bind (fun n => if (n : Int) ≤ 2 ^ 63 then some (-(n : Int)) else none)
    else if b = 43 then (decVal rest).bind (fun n => if (n : Int) < 2 ^ 63 then some (n : Int) else none)
    else (decVal (b :: rest)).bind (fun n => if (n : Int) < 2 ^ 63 then some (n : Int) else none)

/-- `strconv.ParseUint (base 10, 64 bit)`. -/
def ParseUint (s : GoStr) : Option Nat :=
  (decVal s).bind (fun n => if n < 2 ^ 64 then some n else none)

/-- `strconv.FormatUint (base 10)`. -/
def FormatUint (n : Nat) : GoStr := decBytes n

/-- `OTPAuthURL` from `url.go`: requires non-empty secret and account
name; sets `secret`, `digits`, `algorithm` and, depending on whether
the period is positive, `period` (TOTP) or `counter` (HOTP); label is
`issuer:accountName` (query-escaped) with the issuer also added as a
query parameter when non-empty. -/
def OTPAuthURL (c : Config) : Option GoStr :=
  if c.Secret = [] then none
  else if c.AccountName = [] then none
  else
    let base := [(gs ("secret"), c.Secret), (gs ("digits"), Itoa c.Digits),
                 (gs ("algorithm"), c.Algorithm.str)]
    let typed :=
      if 0 < c.Period then (gs ("totp"), base ++ [(gs ("period"), Itoa c.Period)])
      else (gs ("hotp"), base ++ [(gs ("counter"), FormatUint c.Counter)])
    let params := if c.Issuer ≠ [] then typed.2 ++ [(gs ("issuer"), c.Issuer)] else typed.2
    let label := if c.Issuer ≠ [] then c.Issuer ++ 58 :: c.AccountName else c.AccountName
    some (gs ("otpauth://") ++ typed.1 ++ 47 :: queryEscape label ++ 63 :: encodeValues params)

/-- Split at the first occurrence of a separator byte. -/
def splitOnFirst (sep : Nat) : GoStr → GoStr × Option GoStr
  | [] => ([], none)
  | b :: rest =>
    if b = sep then ([], some rest)
    else
      let r := splitOnFirst sep rest
      (b :: r.1, r.2)

/-- Split a query on every `&` (fuel-structured). -/
def splitAmp : Nat → GoStr → List GoStr
  | _, [] => []
  | 0, s => [s]
  | fuel + 1, s =>
    match splitOnFirst 38 s with
    | (seg, none) => [seg]
    | (seg, some rest) => seg :: splitAmp fuel rest

/-- One `k=v` segment of a query, as in `url.ParseQuery`: empty
segments and segments containing `;` are skipped, both halves are
query-unescaped (a failed unescape drops the pair). -/
def parsePair (seg : GoStr) : Option (GoStr × GoStr) :=
  if seg = [] then none
  else if (59 : Nat) ∈ seg then none
  else
    let r := splitOnFirst 61 seg
    match queryUnescape r.1, queryUnescape (r.2.getD []) with
    | some k, some v => some (k, v)
    | _, _ => none

/-- `url.Values` as produced by `url.Query()`: pairs in query order. -/
def parseQuery (s : GoStr) : List (GoStr × GoStr) :=
  (splitAmp s.length s).filterMap parsePair

/-- `url.Values.Get`: first value for the key, or the empty string. -/
def valuesGet : List (GoStr × GoStr) → GoStr → GoStr
  | [], _ => []
  | p :: rest, k => if p.1 = k then p.2 else valuesGet rest k

/-- The fragment of `url.Parse` exercised by otpauth URLs of the shape
`scheme://host/path?query` (no user info, port, or fragment — the
constructor never produces them, since `url.QueryEscape` output
contains no `/ ? # : @`): scheme before the first `:`, host up to the
first `/`, path (percent-decoded, a failed decode is a parse error) up
to the first `?`, raw query after it. -/
def parseURL (u : GoStr) : Option (GoStr × GoStr × GoStr × GoStr) :=
  match splitOnFirst 58 u with
  | (_, none) => none
  | (scheme, some rest) =>
    match rest with
    | 47 :: 47 :: rest2 =>
      let q := splitOnFirst 63 rest2
      let rawQuery := q.2.getD []
      let h := splitOnFirst 47 q.1
      let rawPath : GoStr := match h.2 with | none => [] | some p => 47 :: p
      match pathUnescape rawPath with
      | none => none
      | some path => some (scheme, h.1, path, rawQuery)
    | _ => none

/-- `strings.TrimPrefix(path, "/")`. -/
def trimLeadingSlash : GoStr → GoStr
  | 47 :: rest => rest
  | s => s

/-- `ParseOTPAuthURL` from `url.go`. -/
def ParseOTPAuthURL (u : GoStr) : Option Config :=
  match parseURL u with
  | none => none
  | some (scheme, host, path, rawQuery) =>
    if scheme ≠ gs ("otpauth") then none
    else
      let period0? : Option Int :=
        if host = gs ("totp") then some 30
        else if host = gs ("hotp") then some 0
        else none
      match period0? with
      | none => none
      | some period0 =>
        let label := trimLeadingSlash path
        if label = [] then none
        else
          let c0 : Config := { DefaultConfig with Period := period0 }
          let c1 : Config :=
            match splitOnFirst 58 label with
            | (acct, none) => { c0 with AccountName := acct }
            | (iss, some acct) => { c0 with Issuer := iss, AccountName := acct }
          let params := parseQuery rawQuery
          let secret := valuesGet params (gs ("secret"))
          if secret = [] then none
          else
            let c2 : Config := { c1 with Secret := secret }
            let ds := valuesGet params (gs ("digits"))
            let c3 : Config :=
              if ds ≠ [] then
                match Atoi ds with
                | some d => if 0 < d ∧ d ≤ 10 then { c2 with Digits := d } else c2
                | none => c2
              else c2
            let al := valuesGet params (gs ("algorithm"))
            let c4 : Config :=
              if al ≠ [] then
                if toUpperGo al = gs ("SHA1") then { c3 with Algorithm := .sha1 }
                else if toUpperGo al = gs ("SHA256") then { c3 with Algorithm := .sha256 }
                else if toUpperGo al = gs ("SHA512") then { c3 with Algorithm := .sha512 }
                else c3
              else c3
            let c5 : Config :=
              if 0 < c4.Period then
                let ps := valuesGet params (gs ("period"))
                if ps ≠ [] then
                  match Atoi ps with
                  | some p => if 0 < p then { c4 with Period := p } else c4
                  | none => c4
                else c4
              else c4
            let c6 : Config :=
              if c5.Period = 0 then
                let cs := valuesGet params (gs ("counter"))
                if cs ≠ [] then
                  match ParseUint cs with
                  | some k => { c5 with Counter := k }
                  | none => c5
                else c5
              else c5
            let iss := valuesGet params (gs ("issuer"))
            let c7 : Config := if iss ≠ [] then { c6 with Issuer := iss } else c6
            some c7

/-! ### Concrete inputs used by the counterexamples and witnesses -/

/-- A 20-byte digest whose dynamic truncation reads value 1 at
offset 0. -/
def digestA : GoStr := [0, 0, 0, 1, 0, 0, 0, 0, 0, 0, 0, 0, 0, 0, 0, 0, 0, 0, 0, 0]

/-- A 20-byte digest whose dynamic truncation reads value 2 at
offset 0. -/
def digestB : GoStr := [0, 0, 0, 2, 0, 0, 0, 0, 0, 0, 0, 0, 0, 0, 0, 0, 0, 0, 0, 0]

/-- A 20-byte digest whose dynamic truncation reads value 2000000000
(`0x77359400`) at offset 0. -/
def digest2G : GoStr := [0x77, 0x35, 0x94, 0x00, 0, 0, 0, 0, 0, 0, 0, 0, 0, 0, 0, 0, 0, 0, 0, 0]

/-- Constant hash family. -/
def hmacConst : HmacFamily := fun _ _ _ => digestA

/-- Hash family distinguishing the message that encodes counter
`2 ^ 64 - 1`. -/
def hmacTop : HmacFamily := fun _ _ msg => if msg = uint64be (2 ^ 64 - 1) then digestA else digestB

/-- Hash family distinguishing the message that encodes counter `0`. -/
def hmacZero : HmacFamily := fun _ _ msg => if msg = uint64be 0 then digestA else digestB

/-- Constant hash family producing `digest2G`. -/
def hmac2G : HmacFamily := fun _ _ _ => digest2G

/-- A standard valid configuration (the RFC 4226 test secret). -/
def cfgStd : Config := { DefaultConfig with Secret := gs ("JBSWY3DPEHPK3PXP") }

/-- `cfgStd` with the stored HOTP counter at the top of the `uint64`
range. -/
def cfgTopCounter : Config := { cfgStd with Counter := 2 ^ 64 - 1 }

/-- `cfgStd` with ten digits. -/
def cfgTen : Config := { cfgStd with Digits := 10 }

/-- `cfgStd` with period zero. -/
def cfgZeroPeriod : Config := { cfgStd with Period := 0 }

/-- `cfgStd` with an out-of-range digit count. -/
def cfgBadDigits : Config := { cfgStd with Digits := 0 }

/-- A configuration with empty issuer and a colon inside the account
name. -/
def cfgColon : Config := { cfgStd with AccountName := gs ("a:b") }

/-- A fully populated TOTP configuration with issuer and account
name. -/
def cfgURL : Config := { cfgStd with Issuer := gs ("MyApp"), AccountName := gs ("user@example.com") }

/-- `cfgStd` with a period of `10 ^ 10` seconds, large enough that
`time.Duration(offset*Period) * time.Second` overflows `int64`. -/
def cfgBigPeriod : Config := { cfgStd with Period := 10000000000 }

/-! ### Helper lemmas about decimal formatting and code derivation -/

theorem decBytesAux_len : ∀ fuel n w : Nat, n < fuel → n < 10 ^ w → 0 < w →
    (decBytesAux fuel n).length ≤ w := by
  intro fuel
  induction fuel with
  | zero => intro n w h _ _; exact absurd h (Nat.not_lt_zero n)
  | succ fuel ih =>
    intro n w hfuel hpow hw
    by_cases hn : n < 10
    · simp [decBytesAux, hn]
      omega
    · have hw2 : 2 ≤ w := by
        by_contra hcon
        have hw1 : w = 1 := by omega
        subst hw1
        simp at hpow
        omega
      have h1 : n / 10 < fuel := by omega
      have hsplit : 10 ^ w = 10 ^ (w - 1) * 10 := by
        rw [← pow_succ]
        congr 1
        omega
      rw [hsplit] at hpow
      have hdiv : n / 10 < 10 ^ (w - 1) :=
        (Nat.div_lt_iff_lt_mul (by norm_num)).mpr hpow
      have hrec := ih (n / 10) (w - 1) h1 hdiv (by omega)
      simp [decBytesAux, hn]
      omega

theorem decBytesAux_digits : ∀ fuel n : Nat, ∀ b ∈ decBytesAux fuel n, 48 ≤ b ∧ b ≤ 57 := by
  intro fuel
  induction fuel with
  | zero => intro n b hb; simp [decBytesAux] at hb
  | succ fuel ih =>
    intro n b hb
    by_cases hn : n < 10
    · simp [decBytesAux, hn] at hb
      omega
    · simp [decBytesAux, hn] at hb
      rcases hb with hb | hb
      · exact ih _ _ hb
      · have : n % 10 < 10 := Nat.mod_lt _ (by norm_num)
        omega

theorem formatOTP_length (w n : Nat) (h : n < 10 ^ w) (hw : 0 < w) :
    (formatOTP w n).length = w := by
  have hlen : (decBytes n).length ≤ w := decBytesAux_len (n + 1) n w (by omega) h hw
  simp [formatOTP]
  omega

theorem formatOTP_digits (w n : Nat) : ∀ b ∈ formatOTP w n, 48 ≤ b ∧ b ≤ 57 := by
  intro b hb
  simp [formatOTP] at hb
  rcases hb with ⟨-, hb⟩ | hb
  · omega
  · exact decBytesAux_digits _ _ _ hb

theorem pow10u32_facts : ∀ d : Nat, d < 11 → 0 < pow10u32 d ∧ pow10u32 d ≤ 10 ^ d := by decide

/-- With a valid digit count and a decodable secret, derivation
succeeds and yields a zero-padded decimal string of exactly
`Digits` bytes. -/
theorem generateOTP_ok (H : HmacFamily) (c : Config) (k : Nat)
    (h1 : 0 < c.Digits) (h2 : c.Digits ≤ 10) (h3 : (decodeSecret c).isSome = true) :
    ∃ s, generateOTP H c k = .ok s ∧ s.length = c.Digits.toNat ∧
      ∀ b ∈ s, 48 ≤ b ∧ b ≤ 57 := by
  obtain ⟨bs, hbs⟩ := Option.isSome_iff_exists.mp h3
  have hcond : ¬(c.Digits ≤ 0 ∨ 10 < c.Digits) := by omega
  have hfacts := pow10u32_facts c.Digits.toNat (by omega)
  have hlt : ∀ x : Nat, x % pow10u32 c.Digits.toNat < 10 ^ c.Digits.toNat :=
    fun x => lt_of_lt_of_le (Nat.mod_lt _ hfacts.1) hfacts.2
  simp only [generateOTP, hbs, if_neg hcond]
  exact ⟨_, rfl, formatOTP_length _ _ (hlt _) (by omega), formatOTP_digits _ _⟩

/-- With an out-of-range digit count, derivation fails with
`ErrInvalidDigits` before anything else happens. -/
theorem generateOTP_err (H : HmacFamily) (c : Config)
    (h : c.Digits ≤ 0 ∨ 10 < c.Digits) : ∀ k, generateOTP H c k = .err .invalidDigits := by
  intro k
  simp only [generateOTP, if_pos h]

/-! ### HOTP window-scan characterisation -/

theorem hotpLoop_true_iff (H : HmacFamily) (c : Config) (code : GoStr)
    (hgen : ∀ k, ∃ s, generateOTP H c k = .ok s) :
    ∀ (n i k : Nat), c.Counter + i + n ≤ 2 ^ 64 →
      (hotpLoop H c code i n = .ok (true, k) ↔
        (c.Counter + i ≤ k ∧ k < c.Counter + i + n ∧ generateOTP H c k = .ok code ∧
          ∀ j, c.Counter + i ≤ j → j < k → generateOTP H c j ≠ .ok code)) := by
  intro n
  induction n with
  | zero =>
    intro i k hb
    rw [show hotpLoop H c code i 0 = .ok (false, 0) from rfl]
    constructor
    · intro h
      exact absurd h (by simp)
    · rintro ⟨h1, h2, -, -⟩
      exfalso
      omega
  | succ n ih =>
    intro i k hb
    obtain ⟨s, hs⟩ := hgen (c.Counter + i)
    have hci : (c.Counter + i) % 2 ^ 64 = c.Counter + i := Nat.mod_eq_of_lt (by omega)
    simp only [hotpLoop, hci, hs]
    by_cases hcs : code = s
    · rw [if_pos hcs]
      constructor
      · intro h
        have hk : k = c.Counter + i := by
          simpa using h.symm
        subst hk
        refine ⟨by omega, by omega, by rw [hcs]; exact hs, ?_⟩
        intro j hj1 hj2
        exact absurd hj2 (by omega)
      · rintro ⟨h1, h2, h3, h4⟩
        have hk : k = c.Counter + i := by
          by_contra hne
          exact h4 (c.Counter + i) (by omega) (by omega) (by rw [hcs]; exact hs)
        subst hk
        rfl
    · rw [if_neg hcs]
      rw [ih (i + 1) k (by omega)]
      constructor
      · rintro ⟨h1, h2, h3, h4⟩
        refine ⟨by omega, by omega, h3, ?_⟩
        intro j hj1 hj2
        by_cases hj : j = c.Counter + i
        · subst hj
          rw [hs]
          intro heq
          injection heq with h'
          exact hcs h'.symm
        · exact h4 j (by omega) hj2
      · rintro ⟨h1, h2, h3, h4⟩
        have hk : k ≠ c.Counter + i := by
          intro hk
          rw [hk, hs] at h3
          injection h3 with h'
          exact hcs h'.symm
        exact ⟨by omega, by omega, h3, fun j hj1 hj2 => h4 j (by omega) hj2⟩

theorem hotpLoop_false_iff (H : HmacFamily) (c : Config) (code : GoStr)
    (hgen : ∀ k, ∃ s, generateOTP H c k = .ok s) :
    ∀ (n i : Nat), c.Counter + i + n ≤ 2 ^ 64 →
      (hotpLoop H c code i n = .ok (false, 0) ↔
        ∀ j, c.Counter + i ≤ j → j < c.Counter + i + n → generateOTP H c j ≠ .ok code) := by
  intro n
  induction n with
  | zero =>
    intro i hb
    rw [show hotpLoop H c code i 0 = .ok (false, 0) from rfl]
    simp only [true_iff]
    intro j h1 h2
    exact absurd h2 (by omega)
  | succ n ih =>
    intro i hb
    obtain ⟨s, hs⟩ := hgen (c.Counter + i)
    have hci : (c.Counter + i) % 2 ^ 64 = c.Counter + i := Nat.mod_eq_of_lt (by omega)
    simp only [hotpLoop, hci, hs]
    by_cases hcs : code = s
    · rw [if_pos hcs]
      constructor
      · intro h
        exact absurd h (by simp)
      · intro h
        exfalso
        exact h (c.Counter + i) (by omega) (by omega) (by rw [hcs]; exact hs)
    · rw [if_neg hcs]
      rw [ih (i + 1) (by omega)]
      constructor
      · intro h j h1 h2
        by_cases hj : j = c.Counter + i
        · subst hj
          rw [hs]
          intro heq
          injection heq with h'
          exact hcs h'.symm
        · exact h j (by omega) (by omega)
      · intro h j h1 h2
        exact h j (by omega) (by omega)

/-! ### TOTP window-scan characterisation -/

theorem totpLoop_true_iff (H : HmacFamily) (c : Config) (code : GoStr) (cs : Nat)
    (hgen : ∀ k, ∃ s, generateOTP H c k = .ok s) :
    ∀ (n : Nat) (i0 : Int), -(cs : Int) ≤ i0 → (cs : Int) + i0 + n ≤ 2 ^ 64 →
      (totpLoop H c code cs i0 n = .ok true ↔
        ∃ j : Int, i0 ≤ j ∧ j < i0 + n ∧ generateOTP H c ((cs : Int) + j).toNat = .ok code) := by
  intro n
  induction n with
  | zero =>
    intro i0 h1 h2
    rw [show totpLoop H c code cs i0 0 = .ok false from rfl]
    constructor
    · intro h
      exact absurd h (by simp)
    · rintro ⟨j, hj1, hj2, -⟩
      exfalso
      omega
  | succ n ih =>
    intro i0 h1 h2
    have hcounter : (cs + u64ofInt i0) % 2 ^ 64 = ((cs : Int) + i0).toNat := by
      have e2 : (2 : Nat) ^ 64 = 18446744073709551616 := by norm_num
      have h2x : (cs : Int) + i0 + (n + 1 : Nat) ≤ 18446744073709551616 := by
        rw [show (18446744073709551616 : Int) = 2 ^ 64 by norm_num]
        exact h2
      simp only [u64ofInt, e2]
      omega
    obtain ⟨s, hs⟩ := hgen (((cs : Int) + i0).toNat)
    simp only [totpLoop, hcounter, hs]
    by_cases hcs : code = s
    · rw [if_pos hcs]
      constructor
      · intro _
        exact ⟨i0, le_refl _, by omega, by rw [hcs]; exact hs⟩
      · intro _
        rfl
    · rw [if_neg hcs]
      rw [ih (i0 + 1) (by omega) (by omega)]
      constructor
      · rintro ⟨j, hj1, hj2, hj3⟩
        exact ⟨j, by omega, by omega, hj3⟩
      · rintro ⟨j, hj1, hj2, hj3⟩
        refine ⟨j, ?_, by omega, hj3⟩
        by_contra hlt
        have hj : j = i0 := by omega
        rw [hj, hs] at hj3
        injection hj3 with h'
        exact hcs h'.symm

theorem totpLoop_false_iff (H : HmacFamily) (c : Config) (code : GoStr) (cs : Nat)
    (hgen : ∀ k, ∃ s, generateOTP H c k = .ok s) :
    ∀ (n : Nat) (i0 : Int), -(cs : Int) ≤ i0 → (cs : Int) + i0 + n ≤ 2 ^ 64 →
      (totpLoop H c code cs i0 n = .ok false ↔
        ∀ j : Int, i0 ≤ j → j < i0 + n → generateOTP H c ((cs : Int) + j).toNat ≠ .ok code) := by
  intro n
  induction n with
  | zero =>
    intro i0 h1 h2
    rw [show totpLoop H c code cs i0 0 = .ok false from rfl]
    simp only [true_iff]
    intro j hj1 hj2
    exact absurd hj2 (by omega)
  | succ n ih =>
    intro i0 h1 h2
    have hcounter : (cs + u64ofInt i0) % 2 ^ 64 = ((cs : Int) + i0).toNat := by
      have e2 : (2 : Nat) ^ 64 = 18446744073709551616 := by norm_num
      have h2x : (cs : Int) + i0 + (n + 1 : Nat) ≤ 18446744073709551616 := by
        rw [show (18446744073709551616 : Int) = 2 ^ 64 by norm_num]
        exact h2
      simp only [u64ofInt, e2]
      omega
    obtain ⟨s, hs⟩ := hgen (((cs : Int) + i0).toNat)
    simp only [totpLoop, hcounter, hs]
    by_cases hcs : code = s
    · rw [if_pos hcs]
      constructor
      · intro h
        exact absurd h (by simp)
      · intro h
        exfalso
        exact h i0 (le_refl _) (by omega) (by rw [hcs]; exact hs)
    · rw [if_neg hcs]
      rw [ih (i0 + 1) (by omega) (by omega)]
      constructor
      · intro h j hj1 hj2
        by_cases hj : j = i0
        · subst hj
          rw [hs]
          intro heq
          injection heq with h'
          exact hcs h'.symm
        · exact h j (by omega) (by omega)
      · intro h j hj1 hj2
        exact h j (by omega) (by omega)

/-! ### Batch-generation characterisation -/

theorem addDur_durSeconds (t o P : Int) (h1 : -9223372036 ≤ o * P) (h2 : o * P ≤ 9223372036) :
    addDur t (durSeconds o P) = t + o * P := by
  simp only [addDur, durSeconds, i64wrap]
  generalize o * P = q at h1 h2 ⊢
  omega

theorem batchLoop_spec (H : HmacFamily) (c : Config) (now wc : Int) (hP : 0 < c.Period)
    (hgen : ∀ k, ∃ s, generateOTP H c k = .ok s) :
    ∀ (fuel i : Nat),
      (∀ m : Nat, m < fuel →
        -9223372036 ≤ (((i + m : Nat) : Int) - Int.tdiv wc 2) * c.Period ∧
        (((i + m : Nat) : Int) - Int.tdiv wc 2) * c.Period ≤ 9223372036) →
      batchLoop H now wc c i fuel = some (c, (List.range fuel).map (fun m =>
        { Code := resValue (generateOTP H c
            (u64ofInt (now + (((i + m : Nat) : Int) - Int.tdiv wc 2) * c.Period) /
              u64ofInt c.Period)),
          ValidFrom := (Int.tdiv now c.Period + (((i + m : Nat) : Int) - Int.tdiv wc 2)) * c.Period,
          ValidTo := (Int.tdiv now c.Period + (((i + m : Nat) : Int) - Int.tdiv wc 2) + 1) * c.Period,
          IsCurrent := decide ((((i + m : Nat) : Int) - Int.tdiv wc 2) = 0) })) := by
  intro fuel
  induction fuel with
  | zero =>
    intro i _
    rfl
  | succ fuel ih =>
    intro i hsafe
    have hc' : ¬ c.Period ≤ 0 := by omega
    have hb0 := hsafe 0 (by omega)
    rw [Nat.add_zero] at hb0
    have htt : addDur now (durSeconds ((i : Int) - Int.tdiv wc 2) c.Period) =
        now + ((i : Int) - Int.tdiv wc 2) * c.Period :=
      addDur_durSeconds _ _ _ hb0.1 hb0.2
    have hws : addDur (Int.tdiv now c.Period * c.Period)
          (durSeconds ((i : Int) - Int.tdiv wc 2) c.Period) =
        Int.tdiv now c.Period * c.Period + ((i : Int) - Int.tdiv wc 2) * c.Period :=
      addDur_durSeconds _ _ _ hb0.1 hb0.2
    have hwe : addDur ((Int.tdiv now c.Period + 1) * c.Period)
          (durSeconds ((i : Int) - Int.tdiv wc 2) c.Period) =
        (Int.tdiv now c.Period + 1) * c.Period + ((i : Int) - Int.tdiv wc 2) * c.Period :=
      addDur_durSeconds _ _ _ hb0.1 hb0.2
    obtain ⟨s, hs⟩ :=
      hgen (u64ofInt (now + ((i : Int) - Int.tdiv wc 2) * c.Period) / u64ofInt c.Period)
    have hshift : ∀ m : Nat, (i + 1) + m = i + (m + 1) := fun m => by omega
    have hih := ih (i + 1) (fun m hm => by
      rw [hshift m]
      exact hsafe (m + 1) (by omega))
    simp only [batchLoop, GenerateTOTPAt, GetCurrentTOTPWindow, if_neg hc', htt, hws, hwe,
      hs, hih, List.range_succ_eq_map, List.map_cons, List.map_map, hshift]
    rw [Option.some.injEq, Prod.mk.injEq]
    refine ⟨rfl, ?_⟩
    rw [List.cons.injEq]
    constructor
    · by_cases ho : (i : Int) - Int.tdiv wc 2 = 0
      · rw [ho] at hs
        rw [show now + 0 * c.Period = now by ring] at hs
        simp [ho, hs, resValue, TOTPEntry.mk.injEq]
      · simp [ho, hs, resValue, TOTPEntry.mk.injEq]
        exact ⟨by ring, by ring⟩
    · apply List.map_congr_left
      intro m hm
      rfl

theorem countP_range_one (n k : Nat) (hk : k < n) (p : Nat → Bool)
    (hp : ∀ m, p m = true ↔ m = k) : (List.range n).countP p = 1 := by
  induction n with
  | zero => exact absurd hk (Nat.not_lt_zero k)
  | succ n ih =>
    rw [List.range_succ, List.countP_append]
    by_cases hkn : k = n
    · have h0 : (List.range n).countP p = 0 := by
        rw [List.countP_eq_zero]
        intro a ha
        rw [List.mem_range] at ha
        simp only [hp]
        omega
      rw [h0]
      have hpn : p n = true := (hp n).mpr hkn.symm
      simp [List.countP_cons, hpn]
    · have hpn : ¬ p n = true := by
        rw [hp]
        omega
      rw [ih (by omega)]
      simp [List.countP_cons, hpn]

/-! ### URL escaping lemmas -/

theorem hexDigitUpper_range (n : Nat) (h : n < 16) :
    (48 ≤ hexDigitUpper n ∧ hexDigitUpper n ≤ 57) ∨ (65 ≤ hexDigitUpper n ∧ hexDigitUpper n ≤ 70) := by
  by_cases hn : n < 10
  · simp [hexDigitUpper, hn]
    omega
  · simp [hexDigitUpper, hn]
    omega

theorem escByte_mem (b : Nat) (hb : b < 256) :
    ∀ x ∈ escByte b, x = 43 ∨ x = 37 ∨ (48 ≤ x ∧ x ≤ 57) ∨ (65 ≤ x ∧ x ≤ 90) ∨
      (97 ≤ x ∧ x ≤ 122) ∨ x = 45 ∨ x = 95 ∨ x = 46 ∨ x = 126 := by
  intro x hx
  by_cases hu : isUnreserved b = true
  · have hp := of_decide_eq_true hu
    simp [escByte, hu] at hx
    omega
  · by_cases hsp : b = 32
    · subst hsp
      simp [escByte, isUnreserved] at hx
      omega
    · simp [escByte, hu, hsp] at hx
      have h1 := hexDigitUpper_range (b / 16) (by omega)
      have h2 := hexDigitUpper_range (b % 16) (by omega)
      rcases hx with hx | hx | hx <;> omega

theorem queryEscape_mem (s : GoStr) (hs : ∀ b ∈ s, b < 256) :
    ∀ x ∈ queryEscape s, x = 43 ∨ x = 37 ∨ (48 ≤ x ∧ x ≤ 57) ∨ (65 ≤ x ∧ x ≤ 90) ∨
      (97 ≤ x ∧ x ≤ 122) ∨ x = 45 ∨ x = 95 ∨ x = 46 ∨ x = 126 := by
  intro x hx
  simp only [queryEscape, List.mem_flatMap] at hx
  obtain ⟨b, hb, hxb⟩ := hx
  exact escByte_mem b (hs b hb) x hxb

theorem hexVal_hexDigitUpper : ∀ n : Nat, n < 16 → hexVal (hexDigitUpper n) = some n := by decide

theorem queryUnescape_cons_other (b : Nat) (l : GoStr) (h37 : ¬ b = 37) (h43 : ¬ b = 43) :
    queryUnescape (b :: l) = (queryUnescape l).map (fun r => b :: r) := by
  rw [queryUnescape.eq_def]
  simp only [h37, h43, if_false, ite_false]

theorem queryUnescape_cons_plus (l : GoStr) :
    queryUnescape (43 :: l) = (queryUnescape l).map (fun r => 32 :: r) := by
  rw [queryUnescape.eq_def]
  norm_num

theorem queryUnescape_cons_pct (x y : Nat) (l : GoStr) (vx vy : Nat)
    (hx : hexVal x = some vx) (hy : hexVal y = some vy) :
    queryUnescape (37 :: x :: y :: l) = (queryUnescape l).map (fun r => (16 * vx + vy) :: r) := by
  rw [queryUnescape.eq_def]
  simp only [if_pos rfl, hx, hy, if_true, eq_self_iff_true]

theorem pathUnescape_cons_other (b : Nat) (l : GoStr) (h37 : ¬ b = 37) :
    pathUnescape (b :: l) = (pathUnescape l).map (fun r => b :: r) := by
  rw [pathUnescape.eq_def]
  simp only [h37, if_false, ite_false]

theorem pathUnescape_cons_pct (x y : Nat) (l : GoStr) (vx vy : Nat)
    (hx : hexVal x = some vx) (hy : hexVal y = some vy) :
    pathUnescape (37 :: x :: y :: l) = (pathUnescape l).map (fun r => (16 * vx + vy) :: r) := by
  rw [pathUnescape.eq_def]
  simp only [if_pos rfl, hx, hy, if_true, eq_self_iff_true]

theorem queryUnescape_queryEscape : ∀ s : GoStr, (∀ b ∈ s, b < 256) →
    queryUnescape (queryEscape s) = some s := by
  intro s
  induction s with
  | nil => intro _; rfl
  | cons b rest ih =>
    intro hb
    have hb256 : b < 256 := hb b (List.mem_cons_self _ _)
    have hrest := ih (fun x hx => hb x (List.mem_cons_of_mem _ hx))
    show queryUnescape (escByte b ++ queryEscape rest) = some (b :: rest)
    by_cases hu : isUnreserved b = true
    · have hp := of_decide_eq_true hu
      have h37 : ¬ b = 37 := by omega
      have h43 : ¬ b = 43 := by omega
      rw [show escByte b = [b] by simp [escByte, hu], List.cons_append, List.nil_append,
        queryUnescape_cons_other b _ h37 h43, hrest]
      rfl
    · by_cases hsp : b = 32
      · subst hsp
        rw [show escByte 32 = [43] by rfl, List.cons_append, List.nil_append,
          queryUnescape_cons_plus, hrest]
        rfl
      · have hv1 := hexVal_hexDigitUpper (b / 16) (by omega)
        have hv2 := hexVal_hexDigitUpper (b % 16) (by omega)
        rw [show escByte b = [37, hexDigitUpper (b / 16), hexDigitUpper (b % 16)] by
            simp [escByte, hu, hsp],
          List.cons_append, List.cons_append, List.cons_append, List.nil_append,
          queryUnescape_cons_pct _ _ _ _ _ hv1 hv2, hrest]
        have : 16 * (b / 16) + b % 16 = b := by omega
        rw [this]
        rfl

theorem pathUnescape_queryEscape : ∀ s : GoStr, (∀ b ∈ s, b < 256) → (32 : Nat) ∉ s →
    pathUnescape (queryEscape s) = some s := by
  intro s
  induction s with
  | nil => intro _ _; rfl
  | cons b rest ih =>
    intro hb h32
    have hb256 : b < 256 := hb b (List.mem_cons_self _ _)
    have hrest := ih (fun x hx => hb x (List.mem_cons_of_mem _ hx))
      (fun hx => h32 (List.mem_cons_of_mem _ hx))
    have hbne32 : ¬ b = 32 := fun he => h32 (he ▸ List.mem_cons_self _ _)
    show pathUnescape (escByte b ++ queryEscape rest) = some (b :: rest)
    by_cases hu : isUnreserved b = true
    · have hp := of_decide_eq_true hu
      have h37 : ¬ b = 37 := by omega
      rw [show escByte b = [b] by simp [escByte, hu], List.cons_append, List.nil_append,
        pathUnescape_cons_other b _ h37, hrest]
      rfl
    · have hv1 := hexVal_hexDigitUpper (b / 16) (by omega)
      have hv2 := hexVal_hexDigitUpper (b % 16) (by omega)
      rw [show escByte b = [37, hexDigitUpper (b / 16), hexDigitUpper (b % 16)] by
          simp [escByte, hu, hbne32],
        List.cons_append, List.cons_append, List.cons_append, List.nil_append,
        pathUnescape_cons_pct _ _ _ _ _ hv1 hv2, hrest]
      have : 16 * (b / 16) + b % 16 = b := by omega
      rw [this]
      rfl

/-! ### Query splitting and number parsing lemmas -/

theorem splitOnFirst_not_mem (sep : Nat) : ∀ s : GoStr, sep ∉ s →
    splitOnFirst sep s = (s, none) := by
  intro s
  induction s with
  | nil => intro _; rfl
  | cons b rest ih =>
    intro h
    have hb : ¬ b = sep := by
      intro he
      subst he
      exact h (List.mem_cons_self _ _)
    simp [splitOnFirst, hb, ih (fun hm => h (List.mem_cons_of_mem _ hm))]

theorem splitOnFirst_append (sep : Nat) : ∀ (a b : GoStr), sep ∉ a →
    splitOnFirst sep (a ++ sep :: b) = (a, some b) := by
  intro a
  induction a with
  | nil => intro b _; simp [splitOnFirst]
  | cons x rest ih =>
    intro b h
    have hx : ¬ x = sep := by
      intro he
      subst he
      exact h (List.mem_cons_self _ _)
    simp [splitOnFirst, hx, ih b (fun hm => h (List.mem_cons_of_mem _ hm))]

theorem joinAmp_ne_nil : ∀ ps : List GoStr, ps ≠ [] → (∀ p ∈ ps, p ≠ []) →
    joinAmp ps ≠ [] := by
  intro ps h1 h2
  match ps with
  | [x] => simpa [joinAmp] using h2 x (by simp)
  | x :: y :: r => simp [joinAmp]

theorem splitAmp_joinAmp : ∀ (ps : List GoStr) (fuel : Nat),
    (∀ p ∈ ps, (38 : Nat) ∉ p ∧ p ≠ []) → ps ≠ [] → (joinAmp ps).length ≤ fuel + 1 →
    splitAmp fuel (joinAmp ps) = ps := by
  intro ps
  induction ps with
  | nil => intro fuel _ h _; exact absurd rfl h
  | cons x rest ih =>
    intro fuel hcond hne hlen
    cases rest with
    | nil =>
      have hx38 : (38 : Nat) ∉ x := (hcond x (by simp)).1
      have hxne : x ≠ [] := (hcond x (by simp)).2
      rw [show joinAmp [x] = x from rfl]
      cases fuel with
      | zero =>
        cases x with
        | nil => exact absurd rfl hxne
        | cons c cs => rfl
      | succ f =>
        cases x with
        | nil => exact absurd rfl hxne
        | cons c cs =>
          rw [splitAmp.eq_def]
          simp [splitOnFirst_not_mem 38 (c :: cs) hx38]
    | cons y r =>
      have hx := hcond x (by simp)
      have hyr : ∀ p ∈ y :: r, (38 : Nat) ∉ p ∧ p ≠ [] := fun p hp => hcond p (by simp [hp])
      have hjoin : joinAmp (x :: y :: r) = x ++ 38 :: joinAmp (y :: r) := rfl
      have hjne : joinAmp (y :: r) ≠ [] :=
        joinAmp_ne_nil _ (by simp) (fun p hp => (hyr p hp).2)
      obtain ⟨c, cs, hxeq⟩ : ∃ c cs, x = c :: cs := by
        cases x with
        | nil => exact absurd rfl hx.2
        | cons c cs => exact ⟨c, cs, rfl⟩
      cases fuel with
      | zero =>
        exfalso
        obtain ⟨j0, js, hjeq⟩ : ∃ j0 js, joinAmp (y :: r) = j0 :: js := by
          cases hj : joinAmp (y :: r) with
          | nil => exact absurd hj hjne
          | cons j0 js => exact ⟨j0, js, rfl⟩
        rw [hjoin, hxeq, hjeq] at hlen
        simp [List.length_append] at hlen
      | succ f =>
        subst hxeq
        have hlenJ : (joinAmp (y :: r)).length ≤ f + 1 := by
          rw [hjoin] at hlen
          simp [List.length_append] at hlen
          omega
        rw [hjoin]
        rw [show (c :: cs) ++ 38 :: joinAmp (y :: r) = c :: (cs ++ 38 :: joinAmp (y :: r))
          from rfl]
        have hsf : splitOnFirst 38 (c :: (cs ++ 38 :: joinAmp (y :: r))) =
            (c :: cs, some (joinAmp (y :: r))) := by
          rw [show c :: (cs ++ 38 :: joinAmp (y :: r)) = (c :: cs) ++ 38 :: joinAmp (y :: r)
            from rfl]
          exact splitOnFirst_append 38 (c :: cs) _ hx.1
        rw [splitAmp.eq_def]
        simp only [hsf]
        rw [ih f hyr (by simp) hlenJ]

theorem decBytes_ne_nil (n : Nat) : decBytes n ≠ [] := by
  by_cases hn : n < 10
  · simp [decBytes, decBytesAux, hn]
  · simp [decBytes, decBytesAux, hn]

theorem decBytesAux_foldl : ∀ (fuel n a : Nat), n < fuel →
    (decBytesAux fuel n).foldl (fun x b => x * 10 + (b - 48)) a =
      a * 10 ^ (decBytesAux fuel n).length + n := by
  intro fuel
  induction fuel with
  | zero => intro n a h; exact absurd h (Nat.not_lt_zero n)
  | succ fuel ih =>
    intro n a hfuel
    by_cases hn : n < 10
    · rw [show decBytesAux (fuel + 1) n = [48 + n] by simp [decBytesAux, hn]]
      simp only [List.foldl_cons, List.foldl_nil, List.length_cons, List.length_nil,
        Nat.zero_add, pow_one]
      omega
    · have h1 : n / 10 < fuel := by omega
      rw [show decBytesAux (fuel + 1) n = decBytesAux fuel (n / 10) ++ [48 + n % 10] by
        simp [decBytesAux, hn]]
      rw [List.foldl_append, ih (n / 10) a h1]
      simp only [List.foldl_cons, List.foldl_nil, List.length_append, List.length_cons,
        List.length_nil, Nat.zero_add, pow_succ]
      have h48 : 48 + n % 10 - 48 = n % 10 := by omega
      rw [h48]
      have hdm : n / 10 * 10 + n % 10 = n := by omega
      calc (a * 10 ^ (decBytesAux fuel (n / 10)).length + n / 10) * 10 + n % 10
          = a * (10 ^ (decBytesAux fuel (n / 10)).length * 10) + (n / 10 * 10 + n % 10) := by
            ring
        _ = a * (10 ^ (decBytesAux fuel (n / 10)).length * 10) + n := by rw [hdm]

theorem decBytes_digits (n : Nat) : ∀ b ∈ decBytes n, 48 ≤ b ∧ b ≤ 57 :=
  decBytesAux_digits (n + 1) n

theorem decVal_decBytes (n : Nat) : decVal (decBytes n) = some n := by
  have hdig : (decBytes n).all (fun b => decide (48 ≤ b ∧ b ≤ 57)) = true := by
    rw [List.all_eq_true]
    intro b hb
    exact decide_eq_true (decBytes_digits n b hb)
  rw [decVal, if_neg (decBytes_ne_nil n), if_pos hdig,
    show decBytes n = decBytesAux (n + 1) n from rfl,
    decBytesAux_foldl (n + 1) n 0 (by omega)]
  simp

theorem Atoi_Itoa_nonneg (i : Int) (h0 : 0 ≤ i) (h63 : i < 2 ^ 63) : Atoi (Itoa i) = some i := by
  have hI : Itoa i = decBytes i.toNat := by
    simp [Itoa, if_neg (by omega : ¬ i < 0)]
  obtain ⟨b, rest, hbr⟩ : ∃ b rest, decBytes i.toNat = b :: rest := by
    cases hd : decBytes i.toNat with
    | nil => exact absurd hd (decBytes_ne_nil _)
    | cons b rest => exact ⟨b, rest, rfl⟩
  have hdig : 48 ≤ b ∧ b ≤ 57 :=
    decBytes_digits i.toNat b (by rw [hbr]; exact List.mem_cons_self _ _)
  rw [hI, hbr, Atoi, if_neg (by omega : ¬ b = 45), if_neg (by omega : ¬ b = 43), ← hbr,
    decVal_decBytes]
  have hcast : ((i.toNat : Nat) : Int) = i := Int.toNat_of_nonneg h0
  rw [Option.some_bind, hcast, if_pos h63]

theorem ParseUint_FormatUint (k : Nat) (h : k < 2 ^ 64) :
    ParseUint (FormatUint k) = some k := by
  rw [ParseUint, FormatUint, decVal_decBytes, Option.some_bind, if_pos h]

theorem parsePair_encoded (k v : GoStr) (hk61 : (61 : Nat) ∉ k)
    (hk59 : (59 : Nat) ∉ k) (hkun : queryUnescape k = some k)
    (hv : ∀ b ∈ v, b < 256) (hv59 : (59 : Nat) ∉ queryEscape v) :
    parsePair (k ++ 61 :: queryEscape v) = some (k, v) := by
  have hne : k ++ 61 :: queryEscape v ≠ [] := by simp
  have h59 : (59 : Nat) ∉ k ++ 61 :: queryEscape v := by
    intro hm
    rw [List.mem_append] at hm
    rcases hm with hm | hm
    · exact hk59 hm
    · rcases List.mem_cons.mp hm with hm | hm
      · omega
      · exact hv59 hm
  rw [parsePair, if_neg hne, if_neg h59, splitOnFirst_append 61 k _ hk61]
  simp only [Option.getD_some]
  rw [hkun, queryUnescape_queryEscape v hv]

theorem filterMap_parsePair : ∀ qs : List (GoStr × GoStr),
    (∀ p ∈ qs, (61 : Nat) ∉ p.1 ∧ (59 : Nat) ∉ p.1 ∧ queryEscape p.1 = p.1 ∧
      queryUnescape p.1 = some p.1 ∧ ∀ b ∈ p.2, b < 256) →
    (qs.map (fun p => queryEscape p.1 ++ 61 :: queryEscape p.2)).filterMap parsePair = qs := by
  intro qs
  induction qs with
  | nil => intro _; rfl
  | cons p rest ih =>
    intro hc
    have hp := hc p (by simp)
    have hesc := queryEscape_mem p.2 hp.2.2.2.2
    have hv59 : (59 : Nat) ∉ queryEscape p.2 := fun hm => by have := hesc 59 hm; omega
    have hpp : parsePair (queryEscape p.1 ++ 61 :: queryEscape p.2) = some (p.1, p.2) := by
      rw [hp.2.2.1]
      exact parsePair_encoded p.1 p.2 hp.1 hp.2.1 hp.2.2.2.1 hp.2.2.2.2 hv59
    rw [List.map_cons, List.filterMap_cons, hpp, ih (fun q hq => hc q (by simp [hq]))]

theorem parseQuery_encodeValues (PL : List (GoStr × GoStr))
    (hq : ∀ p ∈ sortByKey PL, p.1 ≠ [] ∧ (38 : Nat) ∉ p.1 ∧ (61 : Nat) ∉ p.1 ∧
      (59 : Nat) ∉ p.1 ∧ queryEscape p.1 = p.1 ∧ queryUnescape p.1 = some p.1 ∧
      ∀ b ∈ p.2, b < 256)
    (hne : sortByKey PL ≠ []) :
    parseQuery (encodeValues PL) = sortByKey PL := by
  have hpieces : ∀ piece ∈ (sortByKey PL).map
      (fun p => queryEscape p.1 ++ 61 :: queryEscape p.2), (38 : Nat) ∉ piece ∧ piece ≠ [] := by
    intro piece hm
    rw [List.mem_map] at hm
    obtain ⟨p, hp, hpe⟩ := hm
    have hc := hq p hp
    have hesc := queryEscape_mem p.2 hc.2.2.2.2.2.2
    constructor
    · rw [← hpe]
      intro hm38
      rw [List.mem_append] at hm38
      rcases hm38 with hm38 | hm38
      · rw [hc.2.2.2.2.1] at hm38
        exact hc.2.1 hm38
      · rcases List.mem_cons.mp hm38 with hm38 | hm38
        · omega
        · have := hesc 38 hm38
          omega
    · rw [← hpe]
      simp
  have hmapne : (sortByKey PL).map (fun p => queryEscape p.1 ++ 61 :: queryEscape p.2) ≠ [] := by
    simpa using hne
  rw [parseQuery, show encodeValues PL =
    joinAmp ((sortByKey PL).map (fun p => queryEscape p.1 ++ 61 :: queryEscape p.2)) from rfl]
  rw [splitAmp_joinAmp _ _ hpieces hmapne (by omega)]
  exact filterMap_parsePair _ (fun p hp => ⟨(hq p hp).2.2.1, (hq p hp).2.2.2.1,
    (hq p hp).2.2.2.2.1, (hq p hp).2.2.2.2.2.1, (hq p hp).2.2.2.2.2.2⟩)

theorem parseURL_constructed (host label query : GoStr)
    (hh58 : (58 : Nat) ∉ host) (hh47 : (47 : Nat) ∉ host) (hh63 : (63 : Nat) ∉ host)
    (hl256 : ∀ b ∈ label, b < 256) (hl32 : (32 : Nat) ∉ label) :
    parseURL (gs ("otpauth://") ++ host ++ 47 :: queryEscape label ++ 63 :: query) =
      some (gs ("otpauth"), host, 47 :: label, query) := by
  have hesc := queryEscape_mem label hl256
  have h63e : (63 : Nat) ∉ queryEscape label := fun hm => by have := hesc 63 hm; omega
  have hshape : gs ("otpauth://") ++ host ++ 47 :: queryEscape label ++ 63 :: query =
      [111, 116, 112, 97, 117, 116, 104] ++ 58 ::
        (47 :: 47 :: (host ++ ((47 :: queryEscape label) ++ (63 :: query)))) := by
    rw [show gs ("otpauth://") = [111, 116, 112, 97, 117, 116, 104, 58, 47, 47] from by decide]
    simp [List.append_assoc]
  have hsplit58 : splitOnFirst 58 (gs ("otpauth://") ++ host ++ 47 :: queryEscape label ++
      63 :: query) = ([111, 116, 112, 97, 117, 116, 104],
        some (47 :: 47 :: (host ++ ((47 :: queryEscape label) ++ (63 :: query))))) := by
    rw [hshape]
    exact splitOnFirst_append 58 _ _ (by decide)
  have hY : host ++ ((47 :: queryEscape label) ++ (63 :: query)) =
      (host ++ 47 :: queryEscape label) ++ 63 :: query := by
    simp [List.append_assoc]
  have h63notin : (63 : Nat) ∉ host ++ 47 :: queryEscape label := by
    intro hm
    rw [List.mem_append] at hm
    rcases hm with hm | hm
    · exact hh63 hm
    · rcases List.mem_cons.mp hm with hm | hm
      · omega
      · exact h63e hm
  have hsplit63 : splitOnFirst 63 (host ++ ((47 :: queryEscape label) ++ (63 :: query))) =
      (host ++ 47 :: queryEscape label, some query) := by
    rw [hY]
    exact splitOnFirst_append 63 _ _ h63notin
  have hsplit47 : splitOnFirst 47 (host ++ 47 :: queryEscape label) =
      (host, some (queryEscape label)) :=
    splitOnFirst_append 47 _ _ hh47
  have hpath : pathUnescape (47 :: queryEscape label) = some (47 :: label) := by
    rw [pathUnescape_cons_other 47 _ (by norm_num), pathUnescape_queryEscape label hl256 hl32]
    rfl
  rw [parseURL, hsplit58]
  simp only [hsplit63, Option.getD_some, hsplit47, hpath]
  rw [show gs ("otpauth") = [111, 116, 112, 97, 117, 116, 104] from by decide]

theorem Itoa_bytes (i : Int) (h0 : 0 ≤ i) : ∀ b ∈ Itoa i, b < 256 := by
  intro b hb
  rw [show Itoa i = decBytes i.toNat by simp [Itoa, if_neg (by omega : ¬ i < 0)]] at hb
  have := decBytes_digits i.toNat b hb
  omega

theorem Itoa_ne_nil (i : Int) (h0 : 0 ≤ i) : Itoa i ≠ [] := by
  rw [show Itoa i = decBytes i.toNat by simp [Itoa, if_neg (by omega : ¬ i < 0)]]
  exact decBytes_ne_nil _

theorem FormatUint_bytes (k : Nat) : ∀ b ∈ FormatUint k, b < 256 := by
  intro b hb
  have := decBytes_digits k b hb
  omega

theorem algStr_bytes (a : Alg) : ∀ b ∈ Alg.str a, b < 256 := by
  cases a <;> decide

theorem algStr_ne_nil (a : Alg) : Alg.str a ≠ [] := by
  cases a <;> decide

/-- The algorithm-override step of `ParseOTPAuthURL` restores the
original algorithm when fed the `Algorithm.String()` output (stated
over an arbitrary intermediate configuration, field by field). -/
theorem alg_parse_step (a : Alg) (S : GoStr) (D : Int) (A0 : Alg) (P : Int) (K : Nat)
    (I N : GoStr) :
    (if ¬ Alg.str a = [] then
      (if toUpperGo (Alg.str a) = gs ("SHA1") then
        ({ Secret := S, Digits := D, Algorithm := Alg.sha1, Period := P, Counter := K,
           Issuer := I, AccountName := N } : Config)
       else if toUpperGo (Alg.str a) = gs ("SHA256") then
        ({ Secret := S, Digits := D, Algorithm := Alg.sha256, Period := P, Counter := K,
           Issuer := I, AccountName := N } : Config)
       else if toUpperGo (Alg.str a) = gs ("SHA512") then
        ({ Secret := S, Digits := D, Algorithm := Alg.sha512, Period := P, Counter := K,
           Issuer := I, AccountName := N } : Config)
       else
        ({ Secret := S, Digits := D, Algorithm := A0, Period := P, Counter := K,
           Issuer := I, AccountName := N } : Config))
     else
      ({ Secret := S, Digits := D, Algorithm := A0, Period := P, Counter := K,
         Issuer := I, AccountName := N } : Config)) =
    { Secret := S, Digits := D, Algorithm := a, Period := P, Counter := K,
      Issuer := I, AccountName := N } := by
  cases a with
  | sha1 =>
    rw [if_pos (by decide : ¬ Alg.str .sha1 = []),
      if_pos (by decide : toUpperGo (Alg.str .sha1) = gs ("SHA1"))]
  | sha256 =>
    rw [if_pos (by decide : ¬ Alg.str .sha256 = []),
      if_neg (by decide : ¬ toUpperGo (Alg.str .sha256) = gs ("SHA1")),
      if_pos (by decide : toUpperGo (Alg.str .sha256) = gs ("SHA256"))]
  | sha512 =>
    rw [if_pos (by decide : ¬ Alg.str .sha512 = []),
      if_neg (by decide : ¬ toUpperGo (Alg.str .sha512) = gs ("SHA1")),
      if_neg (by decide : ¬ toUpperGo (Alg.str .sha512) = gs ("SHA256")),
      if_pos (by decide : toUpperGo (Alg.str .sha512) = gs ("SHA512"))]

/-- Round trip, TOTP case with a non-empty issuer. -/
theorem roundTrip_totp_issuer (c : Config)
    (hsec : c.Secret ≠ []) (hacct : c.AccountName ≠ [])
    (hsec256 : ∀ b ∈ c.Secret, b < 256)
    (hiss256 : ∀ b ∈ c.Issuer, b < 256) (hacc256 : ∀ b ∈ c.AccountName, b < 256)
    (hd1 : 0 < c.Digits) (hd2 : c.Digits ≤ 10)
    (hiss58 : (58 : Nat) ∉ c.Issuer) (hiss32 : (32 : Nat) ∉ c.Issuer)
    (hacc32 : (32 : Nat) ∉ c.AccountName)
    (hper : 0 < c.Period) (hper63 : c.Period < 2 ^ 63)
    (hissne : c.Issuer ≠ []) :
    OTPAuthURL c = some (gs ("otpauth://") ++ gs ("totp") ++
        47 :: queryEscape (c.Issuer ++ 58 :: c.AccountName) ++
        63 :: encodeValues [(gs ("secret"), c.Secret), (gs ("digits"), Itoa c.Digits),
          (gs ("algorithm"), Alg.str c.Algorithm), (gs ("period"), Itoa c.Period),
          (gs ("issuer"), c.Issuer)]) ∧
    ParseOTPAuthURL (gs ("otpauth://") ++ gs ("totp") ++
        47 :: queryEscape (c.Issuer ++ 58 :: c.AccountName) ++
        63 :: encodeValues [(gs ("secret"), c.Secret), (gs ("digits"), Itoa c.Digits),
          (gs ("algorithm"), Alg.str c.Algorithm), (gs ("period"), Itoa c.Period),
          (gs ("issuer"), c.Issuer)]) =
      some { Secret := c.Secret, Digits := c.Digits, Algorithm := c.Algorithm,
             Period := c.Period, Counter := 0, Issuer := c.Issuer,
             AccountName := c.AccountName } := by
  constructor
  · simp only [OTPAuthURL, if_neg hsec, if_neg hacct, if_pos hper, if_pos hissne]
    rfl
  · have hlab256 : ∀ b ∈ c.Issuer ++ 58 :: c.AccountName, b < 256 := by
      intro b hb
      rw [List.mem_append] at hb
      rcases hb with hb | hb
      · exact hiss256 b hb
      · rcases List.mem_cons.mp hb with hb | hb
        · omega
        · exact hacc256 b hb
    have hlab32 : (32 : Nat) ∉ c.Issuer ++ 58 :: c.AccountName := by
      intro hm
      rw [List.mem_append] at hm
      rcases hm with hm | hm
      · exact hiss32 hm
      · rcases List.mem_cons.mp hm with hm | hm
        · omega
        · exact hacc32 hm
    have hpu := parseURL_constructed (gs ("totp")) (c.Issuer ++ 58 :: c.AccountName)
      (encodeValues [(gs ("secret"), c.Secret), (gs ("digits"), Itoa c.Digits),
        (gs ("algorithm"), Alg.str c.Algorithm), (gs ("period"), Itoa c.Period),
        (gs ("issuer"), c.Issuer)])
      (by decide) (by decide) (by decide) hlab256 hlab32
    have hsort : sortByKey [(gs ("secret"), c.Secret), (gs ("digits"), Itoa c.Digits),
        (gs ("algorithm"), Alg.str c.Algorithm), (gs ("period"), Itoa c.Period),
        (gs ("issuer"), c.Issuer)] =
      [(gs ("algorithm"), Alg.str c.Algorithm), (gs ("digits"), Itoa c.Digits),
       (gs ("issuer"), c.Issuer), (gs ("period"), Itoa c.Period),
       (gs ("secret"), c.Secret)] := rfl
    have hcond : ∀ p ∈ sortByKey [(gs ("secret"), c.Secret), (gs ("digits"), Itoa c.Digits),
        (gs ("algorithm"), Alg.str c.Algorithm), (gs ("period"), Itoa c.Period),
        (gs ("issuer"), c.Issuer)], p.1 ≠ [] ∧ (38 : Nat) ∉ p.1 ∧ (61 : Nat) ∉ p.1 ∧
        (59 : Nat) ∉ p.1 ∧ queryEscape p.1 = p.1 ∧ queryUnescape p.1 = some p.1 ∧
        ∀ b ∈ p.2, b < 256 := by
      rw [hsort]
      intro p hp
      rcases (show p = (gs ("algorithm"), Alg.str c.Algorithm) ∨ p = (gs ("digits"), Itoa c.Digits) ∨
          p = (gs ("issuer"), c.Issuer) ∨ p = (gs ("period"), Itoa c.Period) ∨
          p = (gs ("secret"), c.Secret) from by simpa using hp) with hp | hp | hp | hp | hp <;>
        subst hp <;> dsimp only
      · exact ⟨by decide, by decide, by decide, by decide, by decide, by decide,
          algStr_bytes c.Algorithm⟩
      · exact ⟨by decide, by decide, by decide, by decide, by decide, by decide,
          Itoa_bytes c.Digits (by omega)⟩
      · exact ⟨by decide, by decide, by decide, by decide, by decide, by decide, hiss256⟩
      · exact ⟨by decide, by decide, by decide, by decide, by decide, by decide,
          Itoa_bytes c.Period (by omega)⟩
      · exact ⟨by decide, by decide, by decide, by decide, by decide, by decide, hsec256⟩
    have hpq : parseQuery (encodeValues [(gs ("secret"), c.Secret), (gs ("digits"), Itoa c.Digits),
        (gs ("algorithm"), Alg.str c.Algorithm), (gs ("period"), Itoa c.Period),
        (gs ("issuer"), c.Issuer)]) =
      [(gs ("algorithm"), Alg.str c.Algorithm), (gs ("digits"), Itoa c.Digits),
       (gs ("issuer"), c.Issuer), (gs ("period"), Itoa c.Period),
       (gs ("secret"), c.Secret)] := by
      rw [parseQuery_encodeValues _ hcond (by rw [hsort]; simp), hsort]
    have hlabne : ¬ (c.Issuer ++ 58 :: c.AccountName) = [] := by simp
    have hsplitlab : splitOnFirst 58 (c.Issuer ++ 58 :: c.AccountName) =
        (c.Issuer, some c.AccountName) := splitOnFirst_append 58 _ _ hiss58
    have hAtoiD : Atoi (Itoa c.Digits) = some c.Digits :=
      Atoi_Itoa_nonneg c.Digits (by omega) (by
        have h63 : (2 : Int) ^ 63 = 9223372036854775808 := by norm_num
        omega)
    have hAtoiP : Atoi (Itoa c.Period) = some c.Period :=
      Atoi_Itoa_nonneg c.Period (by omega) hper63
    have htrim : trimLeadingSlash (47 :: (c.Issuer ++ 58 :: c.AccountName)) =
        c.Issuer ++ 58 :: c.AccountName := rfl
    have hgetalg : valuesGet [(gs ("algorithm"), Alg.str c.Algorithm),
        (gs ("digits"), Itoa c.Digits), (gs ("issuer"), c.Issuer),
        (gs ("period"), Itoa c.Period), (gs ("secret"), c.Secret)] (gs ("algorithm")) =
      Alg.str c.Algorithm := rfl
    have hgetdig : valuesGet [(gs ("algorithm"), Alg.str c.Algorithm),
        (gs ("digits"), Itoa c.Digits), (gs ("issuer"), c.Issuer),
        (gs ("period"), Itoa c.Period), (gs ("secret"), c.Secret)] (gs ("digits")) =
      Itoa c.Digits := rfl
    have hgetiss : valuesGet [(gs ("algorithm"), Alg.str c.Algorithm),
        (gs ("digits"), Itoa c.Digits), (gs ("issuer"), c.Issuer),
        (gs ("period"), Itoa c.Period), (gs ("secret"), c.Secret)] (gs ("issuer")) =
      c.Issuer := rfl
    have hgetper : valuesGet [(gs ("algorithm"), Alg.str c.Algorithm),
        (gs ("digits"), Itoa c.Digits), (gs ("issuer"), c.Issuer),
        (gs ("period"), Itoa c.Period), (gs ("secret"), c.Secret)] (gs ("period")) =
      Itoa c.Period := rfl
    have hgetsec : valuesGet [(gs ("algorithm"), Alg.str c.Algorithm),
        (gs ("digits"), Itoa c.Digits), (gs ("issuer"), c.Issuer),
        (gs ("period"), Itoa c.Period), (gs ("secret"), c.Secret)] (gs ("secret")) =
      c.Secret := rfl
    have hdigne := Itoa_ne_nil c.Digits (by omega)
    have hperne := Itoa_ne_nil c.Period (by omega)
    have hdcond : 0 < c.Digits ∧ c.Digits ≤ 10 := ⟨hd1, hd2⟩
    have h030 : (0 : Int) < 30 := by norm_num
    have hpnz : ¬ c.Period = 0 := by omega
    rw [ParseOTPAuthURL, hpu]
    simp only [hpq, hsplitlab, htrim, hgetalg, hgetdig, hgetiss, hgetper, hgetsec,
      hAtoiD, hAtoiP, alg_parse_step, hlabne, hsec, hissne, hdigne, hperne, hdcond, h030,
      hper, hpnz, DefaultConfig, ne_eq, not_true, not_false_iff, not_false_eq_true,
      eq_self_iff_true, if_true, if_false, ite_true, ite_false, and_self, true_and, and_true,
      Option.some.injEq]

/-- Round trip, TOTP case with an empty issuer. -/
theorem roundTrip_totp_noIssuer (c : Config)
    (hsec : c.Secret ≠ []) (hacct : c.AccountName ≠ [])
    (hsec256 : ∀ b ∈ c.Secret, b < 256) (hacc256 : ∀ b ∈ c.AccountName, b < 256)
    (hd1 : 0 < c.Digits) (hd2 : c.Digits ≤ 10)
    (hacc32 : (32 : Nat) ∉ c.AccountName) (hacc58 : (58 : Nat) ∉ c.AccountName)
    (hper : 0 < c.Period) (hper63 : c.Period < 2 ^ 63)
    (hisse : c.Issuer = []) :
    OTPAuthURL c = some (gs ("otpauth://") ++ gs ("totp") ++
        47 :: queryEscape c.AccountName ++
        63 :: encodeValues [(gs ("secret"), c.Secret), (gs ("digits"), Itoa c.Digits),
          (gs ("algorithm"), Alg.str c.Algorithm), (gs ("period"), Itoa c.Period)]) ∧
    ParseOTPAuthURL (gs ("otpauth://") ++ gs ("totp") ++
        47 :: queryEscape c.AccountName ++
        63 :: encodeValues [(gs ("secret"), c.Secret), (gs ("digits"), Itoa c.Digits),
          (gs ("algorithm"), Alg.str c.Algorithm), (gs ("period"), Itoa c.Period)]) =
      some { Secret := c.Secret, Digits := c.Digits, Algorithm := c.Algorithm,
             Period := c.Period, Counter := 0, Issuer := [],
             AccountName := c.AccountName } := by
  have hissn : ¬ c.Issuer ≠ [] := fun h => h hisse
  constructor
  · simp only [OTPAuthURL, if_neg hsec, if_neg hacct, if_pos hper, if_neg hissn]
    rfl
  · have hpu := parseURL_constructed (gs ("totp")) c.AccountName
      (encodeValues [(gs ("secret"), c.Secret), (gs ("digits"), Itoa c.Digits),
        (gs ("algorithm"), Alg.str c.Algorithm), (gs ("period"), Itoa c.Period)])
      (by decide) (by decide) (by decide) hacc256 hacc32
    have hsort : sortByKey [(gs ("secret"), c.Secret), (gs ("digits"), Itoa c.Digits),
        (gs ("algorithm"), Alg.str c.Algorithm), (gs ("period"), Itoa c.Period)] =
      [(gs ("algorithm"), Alg.str c.Algorithm), (gs ("digits"), Itoa c.Digits),
       (gs ("period"), Itoa c.Period), (gs ("secret"), c.Secret)] := rfl
    have hcond : ∀ p ∈ sortByKey [(gs ("secret"), c.Secret), (gs ("digits"), Itoa c.Digits),
        (gs ("algorithm"), Alg.str c.Algorithm), (gs ("period"), Itoa c.Period)],
        p.1 ≠ [] ∧ (38 : Nat) ∉ p.1 ∧ (61 : Nat) ∉ p.1 ∧
        (59 : Nat) ∉ p.1 ∧ queryEscape p.1 = p.1 ∧ queryUnescape p.1 = some p.1 ∧
        ∀ b ∈ p.2, b < 256 := by
      rw [hsort]
      intro p hp
      rcases (show p = (gs ("algorithm"), Alg.str c.Algorithm) ∨
          p = (gs ("digits"), Itoa c.Digits) ∨ p = (gs ("period"), Itoa c.Period) ∨
          p = (gs ("secret"), c.Secret) from by simpa using hp) with hp | hp | hp | hp <;>
        subst hp <;> dsimp only
      · exact ⟨by decide, by decide, by decide, by decide, by decide, by decide,
          algStr_bytes c.Algorithm⟩
      · exact ⟨by decide, by decide, by decide, by decide, by decide, by decide,
          Itoa_bytes c.Digits (by omega)⟩
      · exact ⟨by decide, by decide, by decide, by decide, by decide, by decide,
          Itoa_bytes c.Period (by omega)⟩
      · exact ⟨by decide, by decide, by decide, by decide, by decide, by decide, hsec256⟩
    have hpq : parseQuery (encodeValues [(gs ("secret"), c.Secret), (gs ("digits"), Itoa c.Digits),
        (gs ("algorithm"), Alg.str c.Algorithm), (gs ("period"), Itoa c.Period)]) =
      [(gs ("algorithm"), Alg.str c.Algorithm), (gs ("digits"), Itoa c.Digits),
       (gs ("period"), Itoa c.Period), (gs ("secret"), c.Secret)] := by
      rw [parseQuery_encodeValues _ hcond (by rw [hsort]; simp), hsort]
    have hsplitlab : splitOnFirst 58 c.AccountName = (c.AccountName, none) :=
      splitOnFirst_not_mem 58 _ hacc58
    have hAtoiD : Atoi (Itoa c.Digits) = some c.Digits :=
      Atoi_Itoa_nonneg c.Digits (by omega) (by
        have h63 : (2 : Int) ^ 63 = 9223372036854775808 := by norm_num
        omega)
    have hAtoiP : Atoi (Itoa c.Period) = some c.Period :=
      Atoi_Itoa_nonneg c.Period (by omega) hper63
    have htrim : trimLeadingSlash (47 :: c.AccountName) = c.AccountName := rfl
    have hgetalg : valuesGet [(gs ("algorithm"), Alg.str c.Algorithm),
        (gs ("digits"), Itoa c.Digits), (gs ("period"), Itoa c.Period),
        (gs ("secret"), c.Secret)] (gs ("algorithm")) = Alg.str c.Algorithm := rfl
    have hgetdig : valuesGet [(gs ("algorithm"), Alg.str c.Algorithm),
        (gs ("digits"), Itoa c.Digits), (gs ("period"), Itoa c.Period),
        (gs ("secret"), c.Secret)] (gs ("digits")) = Itoa c.Digits := rfl
    have hgetiss : valuesGet [(gs ("algorithm"), Alg.str c.Algorithm),
        (gs ("digits"), Itoa c.Digits), (gs ("period"), Itoa c.Period),
        (gs ("secret"), c.Secret)] (gs ("issuer")) = [] := rfl
    have hgetper : valuesGet [(gs ("algorithm"), Alg.str c.Algorithm),
        (gs ("digits"), Itoa c.Digits), (gs ("period"), Itoa c.Period),
        (gs ("secret"), c.Secret)] (gs ("period")) = Itoa c.Period := rfl
    have hgetsec : valuesGet [(gs ("algorithm"), Alg.str c.Algorithm),
        (gs ("digits"), Itoa c.Digits), (gs ("period"), Itoa c.Period),
        (gs ("secret"), c.Secret)] (gs ("secret")) = c.Secret := rfl
    have hdigne := Itoa_ne_nil c.Digits (by omega)
    have hperne := Itoa_ne_nil c.Period (by omega)
    have hdcond : 0 < c.Digits ∧ c.Digits ≤ 10 := ⟨hd1, hd2⟩
    have h030 : (0 : Int) < 30 := by norm_num
    have hpnz : ¬ c.Period = 0 := by omega
    have haccne : ¬ c.AccountName = [] := hacct
    rw [ParseOTPAuthURL, hpu]
    simp only [hpq, hsplitlab, htrim, hgetalg, hgetdig, hgetiss, hgetper, hgetsec,
      hAtoiD, hAtoiP, alg_parse_step, haccne, hsec, hdigne, hperne, hdcond, h030,
      hper, hpnz, DefaultConfig, ne_eq, not_true, not_false_iff, not_false_eq_true,
      eq_self_iff_true, if_true, if_false, ite_true, ite_false, and_self, true_and, and_true,
      Option.some.injEq]

/-- Round trip, HOTP case with a non-empty issuer. -/
theorem roundTrip_hotp_issuer (c : Config)
    (hsec : c.Secret ≠ []) (hacct : c.AccountName ≠ [])
    (hsec256 : ∀ b ∈ c.Secret, b < 256)
    (hiss256 : ∀ b ∈ c.Issuer, b < 256) (hacc256 : ∀ b ∈ c.AccountName, b < 256)
    (hd1 : 0 < c.Digits) (hd2 : c.Digits ≤ 10)
    (hiss58 : (58 : Nat) ∉ c.Issuer) (hiss32 : (32 : Nat) ∉ c.Issuer)
    (hacc32 : (32 : Nat) ∉ c.AccountName)
    (hper : c.Period ≤ 0) (hctr : c.Counter < 2 ^ 64)
    (hissne : c.Issuer ≠ []) :
    OTPAuthURL c = some (gs ("otpauth://") ++ gs ("hotp") ++
        47 :: queryEscape (c.Issuer ++ 58 :: c.AccountName) ++
        63 :: encodeValues [(gs ("secret"), c.Secret), (gs ("digits"), Itoa c.Digits),
          (gs ("algorithm"), Alg.str c.Algorithm), (gs ("counter"), FormatUint c.Counter),
          (gs ("issuer"), c.Issuer)]) ∧
    ParseOTPAuthURL (gs ("otpauth://") ++ gs ("hotp") ++
        47 :: queryEscape (c.Issuer ++ 58 :: c.AccountName) ++
        63 :: encodeValues [(gs ("secret"), c.Secret), (gs ("digits"), Itoa c.Digits),
          (gs ("algorithm"), Alg.str c.Algorithm), (gs ("counter"), FormatUint c.Counter),
          (gs ("issuer"), c.Issuer)]) =
      some { Secret := c.Secret, Digits := c.Digits, Algorithm := c.Algorithm,
             Period := 0, Counter := c.Counter, Issuer := c.Issuer,
             AccountName := c.AccountName } := by
  constructor
  · simp only [OTPAuthURL, if_neg hsec, if_neg hacct,
      if_neg (by omega : ¬ 0 < c.Period), if_pos hissne]
    rfl
  · have hlab256 : ∀ b ∈ c.Issuer ++ 58 :: c.AccountName, b < 256 := by
      intro b hb
      rw [List.mem_append] at hb
      rcases hb with hb | hb
      · exact hiss256 b hb
      · rcases List.mem_cons.mp hb with hb | hb
        · omega
        · exact hacc256 b hb
    have hlab32 : (32 : Nat) ∉ c.Issuer ++ 58 :: c.AccountName := by
      intro hm
      rw [List.mem_append] at hm
      rcases hm with hm | hm
      · exact hiss32 hm
      · rcases List.mem_cons.mp hm with hm | hm
        · omega
        · exact hacc32 hm
    have hpu := parseURL_constructed (gs ("hotp")) (c.Issuer ++ 58 :: c.AccountName)
      (encodeValues [(gs ("secret"), c.Secret), (gs ("digits"), Itoa c.Digits),
        (gs ("algorithm"), Alg.str c.Algorithm), (gs ("counter"), FormatUint c.Counter),
        (gs ("issuer"), c.Issuer)])
      (by decide) (by decide) (by decide) hlab256 hlab32
    have hsort : sortByKey [(gs ("secret"), c.Secret), (gs ("digits"), Itoa c.Digits),
        (gs ("algorithm"), Alg.str c.Algorithm), (gs ("counter"), FormatUint c.Counter),
        (gs ("issuer"), c.Issuer)] =
      [(gs ("algorithm"), Alg.str c.Algorithm), (gs ("counter"), FormatUint c.Counter),
       (gs ("digits"), Itoa c.Digits), (gs ("issuer"), c.Issuer),
       (gs ("secret"), c.Secret)] := rfl
    have hcond : ∀ p ∈ sortByKey [(gs ("secret"), c.Secret), (gs ("digits"), Itoa c.Digits),
        (gs ("algorithm"), Alg.str c.Algorithm), (gs ("counter"), FormatUint c.Counter),
        (gs ("issuer"), c.Issuer)], p.1 ≠ [] ∧ (38 : Nat) ∉ p.1 ∧ (61 : Nat) ∉ p.1 ∧
        (59 : Nat) ∉ p.1 ∧ queryEscape p.1 = p.1 ∧ queryUnescape p.1 = some p.1 ∧
        ∀ b ∈ p.2, b < 256 := by
      rw [hsort]
      intro p hp
      rcases (show p = (gs ("algorithm"), Alg.str c.Algorithm) ∨
          p = (gs ("counter"), FormatUint c.Counter) ∨ p = (gs ("digits"), Itoa c.Digits) ∨
          p = (gs ("issuer"), c.Issuer) ∨ p = (gs ("secret"), c.Secret)
          from by simpa using hp) with hp | hp | hp | hp | hp <;>
        subst hp <;> dsimp only
      · exact ⟨by decide, by decide, by decide, by decide, by decide, by decide,
          algStr_bytes c.Algorithm⟩
      · exact ⟨by decide, by decide, by decide, by decide, by decide, by decide,
          FormatUint_bytes c.Counter⟩
      · exact ⟨by decide, by decide, by decide, by decide, by decide, by decide,
          Itoa_bytes c.Digits (by omega)⟩
      · exact ⟨by decide, by decide, by decide, by decide, by decide, by decide, hiss256⟩
      · exact ⟨by decide, by decide, by decide, by decide, by decide, by decide, hsec256⟩
    have hpq : parseQuery (encodeValues [(gs ("secret"), c.Secret), (gs ("digits"), Itoa c.Digits),
        (gs ("algorithm"), Alg.str c.Algorithm), (gs ("counter"), FormatUint c.Counter),
        (gs ("issuer"), c.Issuer)]) =
      [(gs ("algorithm"), Alg.str c.Algorithm), (gs ("counter"), FormatUint c.Counter),
       (gs ("digits"), Itoa c.Digits), (gs ("issuer"), c.Issuer),
       (gs ("secret"), c.Secret)] := by
      rw [parseQuery_encodeValues _ hcond (by rw [hsort]; simp), hsort]
    have hlabne : ¬ (c.Issuer ++ 58 :: c.AccountName) = [] := by simp
    have hsplitlab : splitOnFirst 58 (c.Issuer ++ 58 :: c.AccountName) =
        (c.Issuer, some c.AccountName) := splitOnFirst_append 58 _ _ hiss58
    have hAtoiD : Atoi (Itoa c.Digits) = some c.Digits :=
      Atoi_Itoa_nonneg c.Digits (by omega) (by
        have h63 : (2 : Int) ^ 63 = 9223372036854775808 := by norm_num
        omega)
    have hPU : ParseUint (FormatUint c.Counter) = some c.Counter :=
      ParseUint_FormatUint c.Counter hctr
    have htrim : trimLeadingSlash (47 :: (c.Issuer ++ 58 :: c.AccountName)) =
        c.Issuer ++ 58 :: c.AccountName := rfl
    have hgetalg : valuesGet [(gs ("algorithm"), Alg.str c.Algorithm),
        (gs ("counter"), FormatUint c.Counter), (gs ("digits"), Itoa c.Digits),
        (gs ("issuer"), c.Issuer), (gs ("secret"), c.Secret)] (gs ("algorithm")) =
      Alg.str c.Algorithm := rfl
    have hgetctr : valuesGet [(gs ("algorithm"), Alg.str c.Algorithm),
        (gs ("counter"), FormatUint c.Counter), (gs ("digits"), Itoa c.Digits),
        (gs ("issuer"), c.Issuer), (gs ("secret"), c.Secret)] (gs ("counter")) =
      FormatUint c.Counter := rfl
    have hgetdig : valuesGet [(gs ("algorithm"), Alg.str c.Algorithm),
        (gs ("counter"), FormatUint c.Counter), (gs ("digits"), Itoa c.Digits),
        (gs ("issuer"), c.Issuer), (gs ("secret"), c.Secret)] (gs ("digits")) =
      Itoa c.Digits := rfl
    have hgetiss : valuesGet [(gs ("algorithm"), Alg.str c.Algorithm),
        (gs ("counter"), FormatUint c.Counter), (gs ("digits"), Itoa c.Digits),
        (gs ("issuer"), c.Issuer), (gs ("secret"), c.Secret)] (gs ("issuer")) =
      c.Issuer := rfl
    have hgetsec : valuesGet [(gs ("algorithm"), Alg.str c.Algorithm),
        (gs ("counter"), FormatUint c.Counter), (gs ("digits"), Itoa c.Digits),
        (gs ("issuer"), c.Issuer), (gs ("secret"), c.Secret)] (gs ("secret")) =
      c.Secret := rfl
    have hdigne := Itoa_ne_nil c.Digits (by omega)
    have hctrne : FormatUint c.Counter ≠ [] := decBytes_ne_nil _
    have hdcond : 0 < c.Digits ∧ c.Digits ≤ 10 := ⟨hd1, hd2⟩
    have h00 : ¬ (0 : Int) < 0 := by norm_num
    have hhost : ¬ gs ("hotp") = gs ("totp") := by decide
    rw [ParseOTPAuthURL, hpu]
    simp only [hpq, hsplitlab, htrim, hgetalg, hgetctr, hgetdig, hgetiss, hgetsec,
      hAtoiD, hPU, alg_parse_step, hlabne, hsec, hissne, hdigne, hctrne, hdcond, h00, hhost,
      DefaultConfig, ne_eq, not_true, not_false_iff, not_false_eq_true,
      eq_self_iff_true, if_true, if_false, ite_true, ite_false, and_self, true_and, and_true,
      Option.some.injEq]

/-- Round trip, HOTP case with an empty issuer. -/
theorem roundTrip_hotp_noIssuer (c : Config)
    (hsec : c.Secret ≠ []) (hacct : c.AccountName ≠ [])
    (hsec256 : ∀ b ∈ c.Secret, b < 256) (hacc256 : ∀ b ∈ c.AccountName, b < 256)
    (hd1 : 0 < c.Digits) (hd2 : c.Digits ≤ 10)
    (hacc32 : (32 : Nat) ∉ c.AccountName) (hacc58 : (58 : Nat) ∉ c.AccountName)
    (hper : c.Period ≤ 0) (hctr : c.Counter < 2 ^ 64)
    (hisse : c.Issuer = []) :
    OTPAuthURL c = some (gs ("otpauth://") ++ gs ("hotp") ++
        47 :: queryEscape c.AccountName ++
        63 :: encodeValues [(gs ("secret"), c.Secret), (gs ("digits"), Itoa c.Digits),
          (gs ("algorithm"), Alg.str c.Algorithm), (gs ("counter"), FormatUint c.Counter)]) ∧
    ParseOTPAuthURL (gs ("otpauth://") ++ gs ("hotp") ++
        47 :: queryEscape c.AccountName ++
        63 :: encodeValues [(gs ("secret"), c.Secret), (gs ("digits"), Itoa c.Digits),
          (gs ("algorithm"), Alg.str c.Algorithm), (gs ("counter"), FormatUint c.Counter)]) =
      some { Secret := c.Secret, Digits := c.Digits, Algorithm := c.Algorithm,
             Period := 0, Counter := c.Counter, Issuer := [],
             AccountName := c.AccountName } := by
  have hissn : ¬ c.Issuer ≠ [] := fun h => h hisse
  constructor
  · simp only [OTPAuthURL, if_neg hsec, if_neg hacct,
      if_neg (by omega : ¬ 0 < c.Period), if_neg hissn]
    rfl
  · have hpu := parseURL_constructed (gs ("hotp")) c.AccountName
      (encodeValues [(gs ("secret"), c.Secret), (gs ("digits"), Itoa c.Digits),
        (gs ("algorithm"), Alg.str c.Algorithm), (gs ("counter"), FormatUint c.Counter)])
      (by decide) (by decide) (by decide) hacc256 hacc32
    have hsort : sortByKey [(gs ("secret"), c.Secret), (gs ("digits"), Itoa c.Digits),
        (gs ("algorithm"), Alg.str c.Algorithm), (gs ("counter"), FormatUint c.Counter)] =
      [(gs ("algorithm"), Alg.str c.Algorithm), (gs ("counter"), FormatUint c.Counter),
       (gs ("digits"), Itoa c.Digits), (gs ("secret"), c.Secret)] := rfl
    have hcond : ∀ p ∈ sortByKey [(gs ("secret"), c.Secret), (gs ("digits"), Itoa c.Digits),
        (gs ("algorithm"), Alg.str c.Algorithm), (gs ("counter"), FormatUint c.Counter)],
        p.1 ≠ [] ∧ (38 : Nat) ∉ p.1 ∧ (61 : Nat) ∉ p.1 ∧
        (59 : Nat) ∉ p.1 ∧ queryEscape p.1 = p.1 ∧ queryUnescape p.1 = some p.1 ∧
        ∀ b ∈ p.2, b < 256 := by
      rw [hsort]
      intro p hp
      rcases (show p = (gs ("algorithm"), Alg.str c.Algorithm) ∨
          p = (gs ("counter"), FormatUint c.Counter) ∨ p = (gs ("digits"), Itoa c.Digits) ∨
          p = (gs ("secret"), c.Secret) from by simpa using hp) with hp | hp | hp | hp <;>
        subst hp <;> dsimp only
      · exact ⟨by decide, by decide, by decide, by decide, by decide, by decide,
          algStr_bytes c.Algorithm⟩
      · exact ⟨by decide, by decide, by decide, by decide, by decide, by decide,
          FormatUint_bytes c.Counter⟩
      · exact ⟨by decide, by decide, by decide, by decide, by decide, by decide,
          Itoa_bytes c.Digits (by omega)⟩
      · exact ⟨by decide, by decide, by decide, by decide, by decide, by decide, hsec256⟩
    have hpq : parseQuery (encodeValues [(gs ("secret"), c.Secret), (gs ("digits"), Itoa c.Digits),
        (gs ("algorithm"), Alg.str c.Algorithm), (gs ("counter"), FormatUint c.Counter)]) =
      [(gs ("algorithm"), Alg.str c.Algorithm), (gs ("counter"), FormatUint c.Counter),
       (gs ("digits"), Itoa c.Digits), (gs ("secret"), c.Secret)] := by
      rw [parseQuery_encodeValues _ hcond (by rw [hsort]; simp), hsort]
    have hsplitlab : splitOnFirst 58 c.AccountName = (c.AccountName, none) :=
      splitOnFirst_not_mem 58 _ hacc58
    have hAtoiD : Atoi (Itoa c.Digits) = some c.Digits :=
      Atoi_Itoa_nonneg c.Digits (by omega) (by
        have h63 : (2 : Int) ^ 63 = 9223372036854775808 := by norm_num
        omega)
    have hPU : ParseUint (FormatUint c.Counter) = some c.Counter :=
      ParseUint_FormatUint c.Counter hctr
    have htrim : trimLeadingSlash (47 :: c.AccountName) = c.AccountName := rfl
    have hgetalg : valuesGet [(gs ("algorithm"), Alg.str c.Algorithm),
        (gs ("counter"), FormatUint c.Counter), (gs ("digits"), Itoa c.Digits),
        (gs ("secret"), c.Secret)] (gs ("algorithm")) = Alg.str c.Algorithm := rfl
    have hgetctr : valuesGet [(gs ("algorithm"), Alg.str c.Algorithm),
        (gs ("counter"), FormatUint c.Counter), (gs ("digits"), Itoa c.Digits),
        (gs ("secret"), c.Secret)] (gs ("counter")) = FormatUint c.Counter := rfl
    have hgetdig : valuesGet [(gs ("algorithm"), Alg.str c.Algorithm),
        (gs ("counter"), FormatUint c.Counter), (gs ("digits"), Itoa c.Digits),
        (gs ("secret"), c.Secret)] (gs ("digits")) = Itoa c.Digits := rfl
    have hgetiss : valuesGet [(gs ("algorithm"), Alg.str c.Algorithm),
        (gs ("counter"), FormatUint c.Counter), (gs ("digits"), Itoa c.Digits),
        (gs ("secret"), c.Secret)] (gs ("issuer")) = [] := rfl
    have hgetsec : valuesGet [(gs ("algorithm"), Alg.str c.Algorithm),
        (gs ("counter"), FormatUint c.Counter), (gs ("digits"), Itoa c.Digits),
        (gs ("secret"), c.Secret)] (gs ("secret")) = c.Secret := rfl
    have hdigne := Itoa_ne_nil c.Digits (by omega)
    have hctrne : FormatUint c.Counter ≠ [] := decBytes_ne_nil _
    have hdcond : 0 < c.Digits ∧ c.Digits ≤ 10 := ⟨hd1, hd2⟩
    have h00 : ¬ (0 : Int) < 0 := by norm_num
    have hhost : ¬ gs ("hotp") = gs ("totp") := by decide
    have haccne : ¬ c.AccountName = [] := hacct
    rw [ParseOTPAuthURL, hpu]
    simp only [hpq, hsplitlab, htrim, hgetalg, hgetctr, hgetdig, hgetiss, hgetsec,
      hAtoiD, hPU, alg_parse_step, haccne, hsec, hdigne, hctrne, hdcond, h00, hhost,
      DefaultConfig, ne_eq, not_true, not_false_iff, not_false_eq_true,
      eq_self_iff_true, if_true, if_false, ite_true, ite_false, and_self, true_and, and_true,
      Option.some.injEq]


/-- C1, counterexample: with the stored counter at `2 ^ 64 - 1` and
window size 1, the wrapping `uint64` addition makes the scan visit
counter `0`; a code whose derivation matches only counter `0` is
accepted and the matched counter `0` is *below* the base counter, and
outside the range `{C, C + 1}`, contradicting the claim that the scan
never goes below `C` and returns the lowest matching counter in
`C .. C + w`. -/
theorem C1_counterexample :
    (ValidateHOTP hmacZero cfgTopCounter (gs ("000001")) 1).2 = .ok (true, 0) ∧
    cfgTopCounter.Counter = 2 ^ 64 - 1 ∧ 0 < cfgTopCounter.Counter := by
  refine ⟨by decide, by decide, by decide⟩

/-- C1, amended: additionally assuming no `uint64` wraparound
(`Counter + windowSize < 2 ^ 64`), HOTP validation with window size
`w ≥ 0` returns `(true, k)` exactly when `k` is the lowest counter in
`Counter .. Counter + w` whose derived code equals the presented code,
and `(false, 0)` exactly when no counter in that range matches. -/
theorem C1_hotp_validate_window (H : HmacFamily) (c : Config) (code : GoStr) (ws : Int)
    (h1 : 0 < c.Digits) (h2 : c.Digits ≤ 10) (h3 : (decodeSecret c).isSome = true)
    (h4 : 0 ≤ ws) (h5 : c.Counter + ws.toNat < 2 ^ 64) :
    (∀ k, (ValidateHOTP H c code ws).2 = .ok (true, k) ↔
      (c.Counter ≤ k ∧ k ≤ c.Counter + ws.toNat ∧ generateOTP H c k = .ok code ∧
        ∀ j, c.Counter ≤ j → j < k → generateOTP H c j ≠ .ok code)) ∧
    ((ValidateHOTP H c code ws).2 = .ok (false, 0) ↔
      ∀ j, c.Counter ≤ j → j ≤ c.Counter + ws.toNat → generateOTP H c j ≠ .ok code) := by
  have hgen : ∀ k, ∃ s, generateOTP H c k = .ok s :=
    fun k => (generateOTP_ok H c k h1 h2 h3).imp (fun s hh => hh.1)
  have hval : (ValidateHOTP H c code ws).2 = hotpLoop H c code 0 (ws.toNat + 1) := by
    simp [ValidateHOTP, if_neg (by omega : ¬ ws < 0)]
  refine ⟨fun k => ?_, ?_⟩
  · rw [hval, hotpLoop_true_iff H c code hgen (ws.toNat + 1) 0 k (by omega)]
    constructor
    · rintro ⟨a1, a2, a3, a4⟩
      exact ⟨by omega, by omega, a3, fun j hj1 hj2 => a4 j (by omega) hj2⟩
    · rintro ⟨a1, a2, a3, a4⟩
      exact ⟨by omega, by omega, a3, fun j hj1 hj2 => a4 j (by omega) hj2⟩
  · rw [hval, hotpLoop_false_iff H c code hgen (ws.toNat + 1) 0 (by omega)]
    constructor
    · intro h j hj1 hj2
      exact h j (by omega) (by omega)
    · intro h j hj1 hj2
      exact h j (by omega) (by omega)

/-- C1, witness: at a concrete valid configuration whose derived codes
are all `"000001"` (constant hash family), validation with window 2
accepts at the base counter `0`. -/
theorem C1_witness :
    (ValidateHOTP hmacConst cfgStd (gs ("000001")) 2).2 = .ok (true, 0) :=
  ((C1_hotp_validate_window hmacConst cfgStd (gs ("000001")) 2 (by decide) (by decide)
      (by decide) (by decide) (by decide)).1 0).mpr
    ⟨by decide, by decide, by decide, fun j hj1 hj2 => absurd hj2 (by omega)⟩

/-- C2, counterexample: at `t = 0` (current step 0) with window size 1,
the wrapping `uint64` arithmetic makes the scan visit counter
`2 ^ 64 - 1`; a code whose derivation matches only that counter is
accepted even though no step in the claim's symmetric range
`current-step - 1 .. current-step + 1` (whose representable steps are
`0` and `1`) derives the presented code. -/
theorem C2_counterexample :
    (ValidateTOTPAt hmacTop cfgStd (gs ("000001")) 0 1).2 = some (.ok true) ∧
    (∀ s : Nat, s ≤ 1 → generateOTP hmacTop cfgStd s ≠ .ok (gs ("000001"))) ∧
    (0 : Int).toNat / cfgStd.Period.toNat = 0 := by
  refine ⟨by decide, by decide, by decide⟩

/-- C2, amended: additionally assuming a non-negative timestamp in the
`int64` range, `w ≤ current-step` and `current-step + w < 2 ^ 64` (no
`uint64` wraparound), TOTP validation at `t` returns `true` exactly
when some step in `current-step - w .. current-step + w` derives the
presented code, and `false` exactly when none does, where
`current-step = unix-seconds(t) / Period`. -/
theorem C2_totp_validate_window (H : HmacFamily) (c : Config) (code : GoStr) (t ws : Int)
    (h1 : 0 < c.Digits) (h2 : c.Digits ≤ 10) (h3 : (decodeSecret c).isSome = true)
    (hp1 : 0 < c.Period) (hp2 : c.Period < 2 ^ 63)
    (ht1 : 0 ≤ t) (ht2 : t < 2 ^ 63) (hw : 0 ≤ ws)
    (hlow : ws.toNat ≤ t.toNat / c.Period.toNat)
    (hhigh : t.toNat / c.Period.toNat + ws.toNat < 2 ^ 64) :
    ((ValidateTOTPAt H c code t ws).2 = some (.ok true) ↔
      ∃ s : Nat, t.toNat / c.Period.toNat - ws.toNat ≤ s ∧
        s ≤ t.toNat / c.Period.toNat + ws.toNat ∧ generateOTP H c s = .ok code) ∧
    ((ValidateTOTPAt H c code t ws).2 = some (.ok false) ↔
      ¬ ∃ s : Nat, t.toNat / c.Period.toNat - ws.toNat ≤ s ∧
        s ≤ t.toNat / c.Period.toNat + ws.toNat ∧ generateOTP H c s = .ok code) := by
  have hgen : ∀ k, ∃ s, generateOTP H c k = .ok s :=
    fun k => (generateOTP_ok H c k h1 h2 h3).imp (fun s hh => hh.1)
  have e63 : (2 : Int) ^ 63 = 9223372036854775808 := by norm_num
  have e64 : (2 : Nat) ^ 64 = 18446744073709551616 := by norm_num
  have hp2x := hp2
  have ht2x := ht2
  rw [e63] at hp2x ht2x
  have hhighx := hhigh
  rw [e64] at hhighx
  have hPu : u64ofInt c.Period = c.Period.toNat := by
    simp only [u64ofInt]
    omega
  have hTu : u64ofInt t = t.toNat := by
    simp only [u64ofInt]
    omega
  have hPnz : ¬ u64ofInt c.Period = 0 := by
    rw [hPu]
    omega
  have hval : (ValidateTOTPAt H c code t ws).2 =
      some (totpLoop H c code (t.toNat / c.Period.toNat) (-ws) (2 * ws.toNat + 1)) := by
    simp only [ValidateTOTPAt, if_neg (by omega : ¬ ws < 0), hPu, hTu,
      if_neg (show ¬ c.Period.toNat = 0 by omega)]
  have hbound : ((t.toNat / c.Period.toNat : Nat) : Int) + (-ws) + ((2 * ws.toNat + 1 : Nat) : Int)
      ≤ 2 ^ 64 := by
    rw [show ((2 : Int) ^ 64) = 18446744073709551616 by norm_num]
    omega
  constructor
  · rw [hval, Option.some.injEq,
      totpLoop_true_iff H c code (t.toNat / c.Period.toNat) hgen (2 * ws.toNat + 1) (-ws)
        (by omega) hbound]
    constructor
    · rintro ⟨j, hj1, hj2, hj3⟩
      refine ⟨(((t.toNat / c.Period.toNat : Nat) : Int) + j).toNat, by omega, by omega, ?_⟩
      exact hj3
    · rintro ⟨s, hs1, hs2, hs3⟩
      refine ⟨(s : Int) - (t.toNat / c.Period.toNat : Nat), by omega, by omega, ?_⟩
      have hcast : (((t.toNat / c.Period.toNat : Nat) : Int) +
          ((s : Int) - (t.toNat / c.Period.toNat : Nat))).toNat = s := by omega
      rw [hcast]
      exact hs3
  · rw [hval, Option.some.injEq,
      totpLoop_false_iff H c code (t.toNat / c.Period.toNat) hgen (2 * ws.toNat + 1) (-ws)
        (by omega) hbound]
    constructor
    · intro h
      rintro ⟨s, hs1, hs2, hs3⟩
      refine h ((s : Int) - (t.toNat / c.Period.toNat : Nat)) (by omega) (by omega) ?_
      have hcast : (((t.toNat / c.Period.toNat : Nat) : Int) +
          ((s : Int) - (t.toNat / c.Period.toNat : Nat))).toNat = s := by omega
      rw [hcast]
      exact hs3
    · intro h j hj1 hj2 hj3
      exact h ⟨(((t.toNat / c.Period.toNat : Nat) : Int) + j).toNat, by omega, by omega, hj3⟩

/-- C2, witness: at `t = 90`, period 30 (current step 3), window 1, a
code derived by the constant hash family validates, and the matching
step lies in `2 .. 4`. -/
theorem C2_witness :
    ((ValidateTOTPAt hmacConst cfgStd (gs ("000001")) 90 1).2 = some (.ok true) ↔
      ∃ s : Nat, (90 : Int).toNat / cfgStd.Period.toNat - (1 : Int).toNat ≤ s ∧
        s ≤ (90 : Int).toNat / cfgStd.Period.toNat + (1 : Int).toNat ∧
        generateOTP hmacConst cfgStd s = .ok (gs ("000001"))) ∧
    ((ValidateTOTPAt hmacConst cfgStd (gs ("000001")) 90 1).2 = some (.ok false) ↔
      ¬ ∃ s : Nat, (90 : Int).toNat / cfgStd.Period.toNat - (1 : Int).toNat ≤ s ∧
        s ≤ (90 : Int).toNat / cfgStd.Period.toNat + (1 : Int).toNat ∧
        generateOTP hmacConst cfgStd s = .ok (gs ("000001"))) :=
  C2_totp_validate_window hmacConst cfgStd (gs ("000001")) 90 1 (by decide) (by decide)
    (by decide) (by decide) (by decide) (by decide) (by decide) (by decide) (by decide)
    (by decide)

/-- C3: a negative window size is replaced by the documented default —
10 for HOTP validation, 1 for TOTP validation — so validation with any
negative window size behaves exactly like the default. -/
theorem C3_negative_window_default (H : HmacFamily) (c : Config) (code : GoStr) (t ws : Int)
    (h : ws < 0) :
    ValidateHOTP H c code ws = ValidateHOTP H c code 10 ∧
    ValidateTOTPAt H c code t ws = ValidateTOTPAt H c code t 1 := by
  constructor
  · simp [ValidateHOTP, if_pos h]
  · simp [ValidateTOTPAt, if_pos h]

/-- C3, witness: window size `-5` at a concrete configuration. -/
theorem C3_witness :
    ValidateHOTP hmacConst cfgStd (gs ("000001")) (-5) = ValidateHOTP hmacConst cfgStd (gs ("000001")) 10 ∧
    ValidateTOTPAt hmacConst cfgStd (gs ("000001")) 0 (-5) =
      ValidateTOTPAt hmacConst cfgStd (gs ("000001")) 0 1 :=
  C3_negative_window_default hmacConst cfgStd (gs ("000001")) 0 (-5) (by decide)

/-- C4: for a valid digit count and decodable secret, derivation is a
pure function (trivially deterministic in the embedding) and always
returns a decimal string of exactly `Digits` bytes, zero-padded. -/
theorem C4_derive_deterministic (H : HmacFamily) (c : Config) (k : Nat)
    (h1 : 0 < c.Digits) (h2 : c.Digits ≤ 10) (h3 : (decodeSecret c).isSome = true) :
    generateOTP H c k = generateOTP H c k ∧
    ∃ s, generateOTP H c k = .ok s ∧ s.length = c.Digits.toNat ∧
      ∀ b ∈ s, 48 ≤ b ∧ b ≤ 57 :=
  ⟨rfl, generateOTP_ok H c k h1 h2 h3⟩

/-- C4, witness: a concrete valid configuration. -/
theorem C4_witness :
    generateOTP hmacConst cfgStd 0 = generateOTP hmacConst cfgStd 0 ∧
    ∃ s, generateOTP hmacConst cfgStd 0 = .ok s ∧ s.length = cfgStd.Digits.toNat ∧
      ∀ b ∈ s, 48 ≤ b ∧ b ≤ 57 :=
  C4_derive_deterministic hmacConst cfgStd 0 (by decide) (by decide) (by decide)

/-- C5: with a digit count outside `1 .. 10`, derivation — and every
generate/validate operation that reaches it — fails with
`ErrInvalidDigits` and returns no code (TOTP validation only reaches
the derivation when its period division does not panic). -/
theorem C5_invalid_digits_rejected (H : HmacFamily) (c : Config) (k : Nat) (code : GoStr)
    (ws t : Int) (h : c.Digits ≤ 0 ∨ 10 < c.Digits) :
    generateOTP H c k = .err .invalidDigits ∧
    (GenerateHOTP H c).2 = .err .invalidDigits ∧
    (GenerateHOTPAt H c k).2 = .err .invalidDigits ∧
    (GenerateTOTPAt H c t).2 = .err .invalidDigits ∧
    (ValidateHOTP H c code ws).2 = .err .invalidDigits ∧
    (u64ofInt c.Period ≠ 0 → (ValidateTOTPAt H c code t ws).2 = some (.err .invalidDigits)) := by
  have herr := generateOTP_err H c h
  refine ⟨herr k, herr _, herr _, ?_, ?_, ?_⟩
  · by_cases hp : c.Period ≤ 0
    · simp only [GenerateTOTPAt, if_pos hp]
      exact generateOTP_err H _ (by simpa using h) _
    · simp only [GenerateTOTPAt, if_neg hp]
      exact herr _
  · have hL : ∀ i fuel, hotpLoop H c code i (fuel + 1) = .err .invalidDigits := by
      intro i fuel
      simp only [hotpLoop, herr]
    simp only [ValidateHOTP]
    exact hL 0 _
  · intro hPnz
    have hL : ∀ cs i0 fuel, totpLoop H c code cs i0 (fuel + 1) = .err .invalidDigits := by
      intro cs i0 fuel
      simp only [totpLoop, herr]
    simp only [ValidateTOTPAt, if_neg hPnz, hL]

/-- C5, witness: digit count 0 at a concrete configuration. -/
theorem C5_witness :
    generateOTP hmacConst cfgBadDigits 0 = .err .invalidDigits ∧
    (ValidateHOTP hmacConst cfgBadDigits (gs ("0")) 0).2 = .err .invalidDigits ∧
    (ValidateTOTPAt hmacConst cfgBadDigits (gs ("0")) 0 0).2 = some (.err .invalidDigits) := by
  have h := C5_invalid_digits_rejected hmacConst cfgBadDigits 0 (gs ("0")) 0 0 (by decide)
  exact ⟨h.1, h.2.2.2.2.1, h.2.2.2.2.2 (by decide)⟩

/-- C6: at the maximum digit count 10 the modulus is computed in
32-bit arithmetic — `uint32(math.Pow10(10)) = 1410065408`, not
`10 ^ 10` — so a truncated hash value of 2000000000 yields the code
`"0589934592"` where the claimed exact reduction modulo `10 ^ 10`
would yield `"2000000000"`. -/
theorem C6_ten_digit_modulus_mismatch :
    generateOTP hmac2G cfgTen 0 = .ok (gs ("0589934592")) ∧
    pow10u32 10 = 1410065408 ∧
    formatOTP 10 (2000000000 % 10 ^ 10) = gs ("2000000000") ∧
    gs ("0589934592") ≠ gs ("2000000000") := by
  refine ⟨by decide, by decide, by decide, by decide⟩

/-- C7, counterexample: a configuration with a non-empty secret and a
non-empty account name containing a colon (`"a:b"`, empty issuer)
round-trips to a *different* configuration: the parser splits the
label at the first colon, so the result has issuer `"a"` and account
name `"b"`, and neither the issuer nor the account name is
preserved. -/
theorem C7_counterexample :
    cfgColon.Secret ≠ [] ∧ cfgColon.AccountName ≠ [] ∧
    (OTPAuthURL cfgColon).bind ParseOTPAuthURL =
      some { cfgColon with Issuer := gs ("a"), AccountName := gs ("b") } ∧
    cfgColon.Issuer = [] ∧ cfgColon.AccountName = gs ("a:b") := by
  refine ⟨by decide, by decide, by decide, by decide, by decide⟩

/-- C7, amended: additionally assuming ASCII bytes, a digit count in
`1 .. 10`, no space in issuer or account name, no colon in the issuer
(nor — when the issuer is empty — in the account name), a period below
`2 ^ 63` and a counter below `2 ^ 64`, constructing the otpauth URL and
parsing it back preserves secret, digit count, algorithm, issuer and
account name; the period is preserved when positive (TOTP), while a
non-positive period comes back as `0` with the counter preserved
(HOTP). -/
theorem C7_url_round_trip (c : Config)
    (hsec : c.Secret ≠ []) (hacct : c.AccountName ≠ [])
    (hsec256 : ∀ b ∈ c.Secret, b < 256)
    (hiss256 : ∀ b ∈ c.Issuer, b < 256) (hacc256 : ∀ b ∈ c.AccountName, b < 256)
    (hd1 : 0 < c.Digits) (hd2 : c.Digits ≤ 10)
    (hiss58 : (58 : Nat) ∉ c.Issuer) (hiss32 : (32 : Nat) ∉ c.Issuer)
    (hacc32 : (32 : Nat) ∉ c.AccountName)
    (hacc58 : c.Issuer = [] → (58 : Nat) ∉ c.AccountName)
    (hper63 : c.Period < 2 ^ 63) (hctr : c.Counter < 2 ^ 64) :
    ∃ u cfg, OTPAuthURL c = some u ∧ ParseOTPAuthURL u = some cfg ∧
      cfg.Secret = c.Secret ∧ cfg.Digits = c.Digits ∧ cfg.Algorithm = c.Algorithm ∧
      cfg.Issuer = c.Issuer ∧ cfg.AccountName = c.AccountName ∧
      (0 < c.Period → cfg.Period = c.Period) ∧
      (c.Period ≤ 0 → cfg.Period = 0 ∧ cfg.Counter = c.Counter) := by
  by_cases hp : 0 < c.Period
  · by_cases hi : c.Issuer = []
    · obtain ⟨h1, h2⟩ := roundTrip_totp_noIssuer c hsec hacct hsec256 hacc256 hd1 hd2
        hacc32 (hacc58 hi) hp hper63 hi
      exact ⟨_, _, h1, h2, rfl, rfl, rfl, hi.symm, rfl, fun _ => rfl,
        fun h => absurd hp (by omega)⟩
    · obtain ⟨h1, h2⟩ := roundTrip_totp_issuer c hsec hacct hsec256 hiss256 hacc256 hd1 hd2
        hiss58 hiss32 hacc32 hp hper63 hi
      exact ⟨_, _, h1, h2, rfl, rfl, rfl, rfl, rfl, fun _ => rfl,
        fun h => absurd hp (by omega)⟩
  · by_cases hi : c.Issuer = []
    · obtain ⟨h1, h2⟩ := roundTrip_hotp_noIssuer c hsec hacct hsec256 hacc256 hd1 hd2
        hacc32 (hacc58 hi) (by omega) hctr hi
      exact ⟨_, _, h1, h2, rfl, rfl, rfl, hi.symm, rfl, fun h => absurd h hp,
        fun _ => ⟨rfl, rfl⟩⟩
    · obtain ⟨h1, h2⟩ := roundTrip_hotp_issuer c hsec hacct hsec256 hiss256 hacc256 hd1 hd2
        hiss58 hiss32 hacc32 (by omega) hctr hi
      exact ⟨_, _, h1, h2, rfl, rfl, rfl, rfl, rfl, fun h => absurd h hp,
        fun _ => ⟨rfl, rfl⟩⟩

/-- C7, witness: the fully populated TOTP configuration with issuer
`"MyApp"` and account `"user@example.com"` round-trips with every
field preserved. -/
theorem C7_witness :
    ∃ u cfg, OTPAuthURL cfgURL = some u ∧ ParseOTPAuthURL u = some cfg ∧
      cfg.Secret = cfgURL.Secret ∧ cfg.Digits = cfgURL.Digits ∧
      cfg.Algorithm = cfgURL.Algorithm ∧ cfg.Issuer = cfgURL.Issuer ∧
      cfg.AccountName = cfgURL.AccountName ∧
      (0 < cfgURL.Period → cfg.Period = cfgURL.Period) ∧
      (cfgURL.Period ≤ 0 → cfg.Period = 0 ∧ cfg.Counter = cfgURL.Counter) :=
  C7_url_round_trip cfgURL (by decide) (by decide) (by decide) (by decide) (by decide)
    (by decide) (by decide) (by decide) (by decide) (by decide) (by decide) (by decide)
    (by decide)

/-- C8, counterexample: with period `10 ^ 10` and `now = 2 * 10 ^ 10`
(inputs the original claim quantifies over: `N = 3 ≥ 1`, valid secret
and digits, positive period), the duration `offset*Period` seconds
overflows `int64` nanoseconds: at offset `-1`,
`time.Duration(-10^10) * time.Second` wraps to `+8446744073709551616`
ns (about `+8.4e9` s), so the first entry's target time and validity
interval land *after* the current window — its interval
`[28446744073, 38446744073)` overlaps the current entry's
`[2*10^10, 3*10^10)`, is not contiguous with it, and is not the
previous step's window, refuting the claimed step association,
contiguity and non-overlap. -/
theorem C8_counterexample :
    ∃ e0 e1 e2, GenerateTOTPBatch hmacConst cfgBigPeriod 20000000000 3 =
        some (cfgBigPeriod, [e0, e1, e2]) ∧
      e1.IsCurrent = true ∧
      e0.ValidTo ≠ e1.ValidFrom ∧
      e1.ValidFrom < e0.ValidTo ∧ e0.ValidFrom < e1.ValidTo ∧
      e0.ValidFrom ≠ (Int.tdiv 20000000000 cfgBigPeriod.Period - 1) * cfgBigPeriod.Period := by
  refine ⟨⟨gs ("000001"), 28446744073, 38446744073, false⟩,
          ⟨gs ("000001"), 20000000000, 30000000000, true⟩,
          ⟨gs ("000001"), 11553255926, 21553255926, false⟩,
          by decide, by decide, by decide, by decide, by decide, by decide⟩

/-- C8, amended: for `N ≥ 1` over a valid configuration (valid digits,
decodable secret, positive period), a current time with all batch
target times in the representable non-negative range, and offsets
small enough that `offset * period` seconds fits in `int64`
nanoseconds (`N * period ≤ 9223372036`, so neither the duration
scaling by `1e9` nor the `uint64` step arithmetic wraps), batch
generation returns exactly `N` entries for the consecutive steps
`current-step - N/2 .. current-step + (N - 1 - N/2)` (offsets
`-(N/2) ..` with truncating division), each entry's validity interval
being `[step * period, (step + 1) * period)` — so intervals have
length one period, are contiguous in step order, hence pairwise
non-overlapping — each entry's code being the derived code of its
step, and exactly one entry (the offset-0 one) flagged current. -/
theorem C8_batch_entries (H : HmacFamily) (c : Config) (now N : Int)
    (h1 : 0 < c.Digits) (h2 : c.Digits ≤ 10) (h3 : (decodeSecret c).isSome = true)
    (hP : 0 < c.Period) (hN : 1 ≤ N)
    (hlow : 0 ≤ now - Int.tdiv N 2 * c.Period)
    (hhigh : now + N * c.Period < 2 ^ 63)
    (hdur : N * c.Period ≤ 9223372036) :
    ∃ entries, GenerateTOTPBatch H c now N = some (c, entries) ∧
      entries.length = N.toNat ∧
      (∀ m (hm : m < entries.length),
        (entries.get ⟨m, hm⟩).ValidFrom =
          (Int.tdiv now c.Period + ((m : Int) - Int.tdiv N 2)) * c.Period ∧
        (entries.get ⟨m, hm⟩).ValidTo = (entries.get ⟨m, hm⟩).ValidFrom + c.Period ∧
        ((entries.get ⟨m, hm⟩).IsCurrent = true ↔ (m : Int) = Int.tdiv N 2) ∧
        generateOTP H c ((Int.tdiv now c.Period + ((m : Int) - Int.tdiv N 2)).toNat) =
          .ok (entries.get ⟨m, hm⟩).Code) ∧
      (∀ m (hm : m + 1 < entries.length),
        (entries.get ⟨m, Nat.lt_of_succ_lt hm⟩).ValidTo = (entries.get ⟨m + 1, hm⟩).ValidFrom) ∧
      (entries.filter (fun en => en.IsCurrent)).length = 1 := by
  have hgen : ∀ k, ∃ s, generateOTP H c k = .ok s :=
    fun k => (generateOTP_ok H c k h1 h2 h3).imp (fun s hh => hh.1)
  have hwc : ¬ N ≤ 0 := by omega
  have hnow0 : 0 ≤ now := by
    have hd0 : 0 ≤ Int.tdiv N 2 := Int.tdiv_nonneg (by omega) (by norm_num)
    have := mul_nonneg hd0 (le_of_lt hP)
    linarith
  have hdN : Int.tdiv N 2 < N := by
    rw [Int.tdiv_eq_ediv (by omega) (by norm_num)]
    omega
  have hd0 : 0 ≤ Int.tdiv N 2 := Int.tdiv_nonneg (by omega) (by norm_num)
  have hcnt : ∀ m : Nat, m < N.toNat →
      u64ofInt (now + ((m : Int) - Int.tdiv N 2) * c.Period) / u64ofInt c.Period =
        (Int.tdiv now c.Period + ((m : Int) - Int.tdiv N 2)).toNat := by
    intro m hm
    have ho1 : -(Int.tdiv N 2) ≤ (m : Int) - Int.tdiv N 2 := by omega
    have ho2 : (m : Int) - Int.tdiv N 2 ≤ N := by omega
    have hm1 : -(Int.tdiv N 2) * c.Period ≤ ((m : Int) - Int.tdiv N 2) * c.Period :=
      mul_le_mul_of_nonneg_right ho1 (le_of_lt hP)
    have hm2 : ((m : Int) - Int.tdiv N 2) * c.Period ≤ N * c.Period :=
      mul_le_mul_of_nonneg_right ho2 (le_of_lt hP)
    have htlow : 0 ≤ now + ((m : Int) - Int.tdiv N 2) * c.Period := by
      have : -(Int.tdiv N 2 * c.Period) = -(Int.tdiv N 2) * c.Period := by ring
      linarith [hlow]
    have hthigh : now + ((m : Int) - Int.tdiv N 2) * c.Period < 9223372036854775808 := by
      have hhx := hhigh
      rw [show ((2 : Int) ^ 63) = 9223372036854775808 by norm_num] at hhx
      linarith
    have hPhigh : c.Period < 9223372036854775808 := by
      have hNP : c.Period ≤ N * c.Period := le_mul_of_one_le_left (le_of_lt hP) hN
      have hhx := hhigh
      rw [show ((2 : Int) ^ 63) = 9223372036854775808 by norm_num] at hhx
      linarith
    have hu1 : u64ofInt (now + ((m : Int) - Int.tdiv N 2) * c.Period) =
        (now + ((m : Int) - Int.tdiv N 2) * c.Period).toNat := by
      simp only [u64ofInt]
      omega
    have hu2 : u64ofInt c.Period = c.Period.toNat := by
      simp only [u64ofInt]
      omega
    have hediv : (now + ((m : Int) - Int.tdiv N 2) * c.Period) / c.Period =
        now / c.Period + ((m : Int) - Int.tdiv N 2) :=
      Int.add_mul_ediv_right now _ (by omega)
    have htd : Int.tdiv now c.Period = now / c.Period :=
      Int.tdiv_eq_ediv hnow0 (le_of_lt hP)
    have hcast : (((now + ((m : Int) - Int.tdiv N 2) * c.Period).toNat / c.Period.toNat : Nat) : Int)
        = now / c.Period + ((m : Int) - Int.tdiv N 2) := by
      rw [Int.natCast_div, Int.toNat_of_nonneg htlow, Int.toNat_of_nonneg (le_of_lt hP), hediv]
    rw [hu1, hu2, htd]
    rw [← Int.toNat_natCast ((now + ((m : Int) - Int.tdiv N 2) * c.Period).toNat / c.Period.toNat),
      hcast]
  have hsafe : ∀ m : Nat, m < N.toNat →
      -9223372036 ≤ (((0 + m : Nat) : Int) - Int.tdiv N 2) * c.Period ∧
      (((0 + m : Nat) : Int) - Int.tdiv N 2) * c.Period ≤ 9223372036 := by
    intro m hm
    have hmi : ((0 + m : Nat) : Int) = (m : Int) := by push_cast; ring
    rw [hmi]
    have ho1 : -N ≤ (m : Int) - Int.tdiv N 2 := by omega
    have ho2 : (m : Int) - Int.tdiv N 2 ≤ N := by omega
    have hm1 := mul_le_mul_of_nonneg_right ho1 (le_of_lt hP)
    have hm2 := mul_le_mul_of_nonneg_right ho2 (le_of_lt hP)
    have hneg : -N * c.Period = -(N * c.Period) := by ring
    rw [hneg] at hm1
    exact ⟨by linarith, by linarith⟩
  have hloop := batchLoop_spec H c now N hP hgen N.toNat 0 hsafe
  refine ⟨(List.range N.toNat).map (fun m =>
    { Code := resValue (generateOTP H c
        (u64ofInt (now + (((0 + m : Nat) : Int) - Int.tdiv N 2) * c.Period) / u64ofInt c.Period)),
      ValidFrom := (Int.tdiv now c.Period + (((0 + m : Nat) : Int) - Int.tdiv N 2)) * c.Period,
      ValidTo := (Int.tdiv now c.Period + (((0 + m : Nat) : Int) - Int.tdiv N 2) + 1) * c.Period,
      IsCurrent := decide ((((0 + m : Nat) : Int) - Int.tdiv N 2) = 0) }), ?_, ?_, ?_, ?_, ?_⟩
  · simp only [GenerateTOTPBatch, if_neg hwc]
    exact hloop
  · simp
  · intro m hm
    have hmN : m < N.toNat := by simpa using hm
    refine ⟨?_, ?_, ?_, ?_⟩
    · simp only [List.get_eq_getElem, List.getElem_map, List.getElem_range, Nat.zero_add]
    · simp only [List.get_eq_getElem, List.getElem_map, List.getElem_range, Nat.zero_add]
      ring
    · simp only [List.get_eq_getElem, List.getElem_map, List.getElem_range, Nat.zero_add,
        decide_eq_true_eq]
      omega
    · simp only [List.get_eq_getElem, List.getElem_map, List.getElem_range, Nat.zero_add]
      rw [hcnt m hmN]
      obtain ⟨s, hs⟩ := hgen ((Int.tdiv now c.Period + ((m : Int) - Int.tdiv N 2)).toNat)
      rw [hs]
      rfl
  · intro m hm
    simp only [List.get_eq_getElem, List.getElem_map, List.getElem_range, Nat.zero_add]
    push_cast
    ring
  · rw [← List.countP_eq_length_filter, List.countP_map]
    apply countP_range_one N.toNat (Int.tdiv N 2).toNat (by omega)
    intro m
    simp only [Function.comp, Nat.zero_add, decide_eq_true_eq]
    omega

/-- C8, witness: three entries at `now = 95`, period 30 (current
step 3), valid digits and secret. -/
theorem C8_witness :
    ∃ entries, GenerateTOTPBatch hmacConst cfgStd 95 3 = some (cfgStd, entries) ∧
      entries.length = (3 : Int).toNat ∧
      (∀ m (hm : m < entries.length),
        (entries.get ⟨m, hm⟩).ValidFrom =
          (Int.tdiv 95 cfgStd.Period + ((m : Int) - Int.tdiv 3 2)) * cfgStd.Period ∧
        (entries.get ⟨m, hm⟩).ValidTo = (entries.get ⟨m, hm⟩).ValidFrom + cfgStd.Period ∧
        ((entries.get ⟨m, hm⟩).IsCurrent = true ↔ (m : Int) = Int.tdiv 3 2) ∧
        generateOTP hmacConst cfgStd ((Int.tdiv 95 cfgStd.Period + ((m : Int) - Int.tdiv 3 2)).toNat) =
          .ok (entries.get ⟨m, hm⟩).Code) ∧
      (∀ m (hm : m + 1 < entries.length),
        (entries.get ⟨m, Nat.lt_of_succ_lt hm⟩).ValidTo = (entries.get ⟨m + 1, hm⟩).ValidFrom) ∧
      (entries.filter (fun en => en.IsCurrent)).length = 1 :=
  C8_batch_entries hmacConst cfgStd 95 3 (by decide) (by decide) (by decide) (by decide)
    (by decide) (by decide) (by decide) (by decide)

/-- C9, counterexample: TOTP generation at a configuration with
`Period = 0` overwrites the caller-visible `Period` field with the
default 30, so generation does not leave every config field
unchanged. -/
theorem C9_counterexample :
    (GenerateTOTPAt hmacConst cfgZeroPeriod 0).1 ≠ cfgZeroPeriod ∧
    cfgZeroPeriod.Period = 0 ∧ (GenerateTOTPAt hmacConst cfgZeroPeriod 0).1.Period = 30 := by
  refine ⟨by decide, by decide, by decide⟩

/-- C9, amended: HOTP validation, TOTP validation and HOTP generation
never mutate the configuration (in particular the stored counter), and
TOTP generation leaves it unchanged provided the period is positive
(with a non-positive period it writes the default 30 into `Period`). -/
theorem C9_no_config_mutation (H : HmacFamily) (c : Config) (code : GoStr) (ws t : Int)
    (k : Nat) :
    (ValidateHOTP H c code ws).1 = c ∧
    (ValidateTOTPAt H c code t ws).1 = c ∧
    (GenerateHOTP H c).1 = c ∧
    (GenerateHOTPAt H c k).1 = c ∧
    (0 < c.Period → GenerateTOTPAt H c t = (c, generateOTP H c (u64ofInt t / u64ofInt c.Period))) := by
  refine ⟨rfl, ?_, rfl, rfl, ?_⟩
  · by_cases hz : u64ofInt c.Period = 0
    · simp [ValidateTOTPAt, hz]
    · simp [ValidateTOTPAt, hz]
  · intro hp
    simp [GenerateTOTPAt, if_neg (by omega : ¬ c.Period ≤ 0)]

/-- C9, witness: a concrete configuration with positive period. -/
theorem C9_witness :
    (ValidateHOTP hmacConst cfgStd (gs ("000001")) 3).1 = cfgStd ∧
    (ValidateTOTPAt hmacConst cfgStd (gs ("000001")) 7 3).1 = cfgStd ∧
    (GenerateHOTP hmacConst cfgStd).1 = cfgStd ∧
    (GenerateHOTPAt hmacConst cfgStd 5).1 = cfgStd ∧
    GenerateTOTPAt hmacConst cfgStd 7 =
      (cfgStd, generateOTP hmacConst cfgStd (u64ofInt 7 / u64ofInt cfgStd.Period)) := by
  have h := C9_no_config_mutation hmacConst cfgStd (gs ("000001")) 3 7 5
  exact ⟨h.1, h.2.1, h.2.2.1, h.2.2.2.1, h.2.2.2.2 (by decide)⟩

/-- C10: TOTP validation does not replace a non-positive period: with
`Period = 0` the counter division is a `uint64` division by zero (a
Go runtime panic, modelled as `none`), while with a positive in-range
period it always produces a result; TOTP generation, in contrast,
replaces the non-positive period by 30 and divides by 30. -/
theorem C10_validate_requires_positive_period (H : HmacFamily) (c cP : Config) (code : GoStr)
    (t ws : Int) (hz : c.Period = 0) (hp1 : 0 < cP.Period) (hp2 : cP.Period < 2 ^ 63) :
    (ValidateTOTPAt H c code t ws).2 = none ∧
    ((ValidateTOTPAt H cP code t ws).2).isSome = true ∧
    GenerateTOTPAt H c t = ({ c with Period := 30 },
      generateOTP H { c with Period := 30 } (u64ofInt t / 30)) := by
  refine ⟨?_, ?_, ?_⟩
  · have h0 : u64ofInt c.Period = 0 := by
      rw [hz]
      rfl
    simp [ValidateTOTPAt, h0]
  · have hnz : ¬ u64ofInt cP.Period = 0 := by
      have e63 : (2 : Int) ^ 63 = 9223372036854775808 := by norm_num
      rw [e63] at hp2
      simp only [u64ofInt]
      omega
    simp [ValidateTOTPAt, hnz]
  · have h30 : u64ofInt 30 = 30 := by decide
    simp [GenerateTOTPAt, if_pos (by omega : c.Period ≤ 0), h30]

/-- C10, witness: period 0 panics, period 30 yields a result,
generation at period 0 divides by the default 30. -/
theorem C10_witness :
    (ValidateTOTPAt hmacConst cfgZeroPeriod (gs ("000001")) 0 1).2 = none ∧
    ((ValidateTOTPAt hmacConst cfgStd (gs ("000001")) 0 1).2).isSome = true ∧
    GenerateTOTPAt hmacConst cfgZeroPeriod 0 = ({ cfgZeroPeriod with Period := 30 },
      generateOTP hmacConst { cfgZeroPeriod with Period := 30 } (u64ofInt 0 / 30)) :=
  C10_validate_requires_positive_period hmacConst cfgZeroPeriod cfgStd (gs ("000001")) 0 1
    (by decide) (by decide) (by decide)

end Otp
